import Mathlib

/-!
# Secure dot-product example driver (`Utils/paper-example.cpp`)

A shallow embedding of the two functions of `Utils/paper-example.cpp`:

* `main`  (source lines 22-69): argument handling and backend dispatch;
* `run`   (source lines 71-124): the fixed script input -> dot product -> check -> open -> check.

Modelling decisions.

* `int` is the 32-bit two's complement type: a value of type `int` is an `Int` in
  `[-2^31, 2^31)`, and the result of `nparties - 1` and of `2 * threshold` in `main`
  is reduced into that range by `wrapInt`, as the compiled program does (signed
  overflow is undefined behaviour in C++; the binary wraps).  The other `int`
  computations of the file (`prime_length + 63`, the loop counters up to 1000) cannot
  leave the range.  `/` on `int` is C++ division, which truncates towards zero:
  `Int.tdiv`.
* `atoi` is the one of the GNU C library on a platform with 64-bit `long`:
  `(int) strtol(str, NULL, 10)`, where `strtol` saturates at `LONG_MIN` / `LONG_MAX`
  and the conversion to `int` keeps the low 32 bits.
* `argv` is a `List String` and `argc` is its length.
* The classes the driver calls (`Names`, `CryptoPlayer`, `ProtocolSetup`, `ProtocolSet`
  and the `input` / `protocol` / `output` members of the latter) live in headers that
  are not part of the embedded file.  They are a parameter of the embedding: a
  `Collab` gives, for every call the driver makes, the effect on the collaborators'
  state and the returned value, or an error when the call throws.
* Every collaborator call is logged in `State.trace`: a `call` entry when the call is
  made and a `ret` entry when it returns.  A call that throws ends the run, so an
  aborted run's trace ends with a call that has no `ret` entry.
* `assert` is active (the program is not compiled with `NDEBUG`).
-/

namespace PaperExample

/-! ## Data model -/

/-- Failure classes of the collaborators (section 7 of the specification). -/
inductive Err where
  | ConfigurationError
  | NetworkError
  | ProtocolError
  | PreprocessingExhaustedError
  | IntegrityCheckFailure
  deriving DecidableEq, Repr

/-- The share types `run` is instantiated with in `main`, with their template arguments. -/
inductive ShareT where
  /-- `Share<gfp_<X, L>>` (MASCOT) -/
  | Share (X L : Int)
  /-- `CowGearShare<gfp_<X, L>>` -/
  | CowGearShare (X L : Int)
  /-- `Spdz2kShare<K, S>` -/
  | Spdz2kShare (K S : Int)
  /-- `Semi2kShare<K>` -/
  | Semi2kShare (K : Int)
  /-- `ShamirShare<gfp_<X, L>>` -/
  | ShamirShare (X L : Int)
  /-- `MaliciousShamirShare<gfp_<X, L>>` -/
  | MaliciousShamirShare (X L : Int)
  deriving DecidableEq, Repr

/-- Collaborator calls of the driver that return nothing. -/
inductive VoidCall (Sh : Type) where
  /-- `Names N(my_number, n_parties, "localhost", port_base)` -/
  | Names (my_number n_parties : Int) (host : String) (port_base : Int)
  /-- `CryptoPlayer P(N)` -/
  | CryptoPlayer
  /-- `ProtocolSetup<T> setup(P, prime_length)` -/
  | ProtocolSetup (prime_length : Int)
  /-- `ProtocolSet<T> set(P, setup)` -/
  | ProtocolSet
  /-- `input.reset_all(P)` -/
  | input_reset_all
  /-- `input.add_from_all(i)` -/
  | input_add_from_all (i : Int)
  /-- `input.exchange()` -/
  | input_exchange
  /-- `protocol.init_dotprod()` -/
  | init_dotprod
  /-- `protocol.prepare_dotprod(x, y)` -/
  | prepare_dotprod (x y : Sh)
  /-- `protocol.next_dotprod()` -/
  | next_dotprod
  /-- `protocol.exchange()` -/
  | protocol_exchange
  /-- `protocol.check()` -/
  | protocol_check
  /-- `output.init_open(P)` -/
  | init_open
  /-- `output.prepare_open(c)` -/
  | prepare_open (c : Sh)
  /-- `output.exchange(P)` -/
  | output_exchange
  /-- `output.Check(P)` -/
  | output_Check
  deriving DecidableEq, Repr

/-- Collaborator calls of the driver that return a share. -/
inductive ShareCall where
  /-- `input.finalize(owner)` -/
  | input_finalize (owner : Int)
  /-- `protocol.finalize_dotprod(n)` -/
  | finalize_dotprod (n : Int)
  deriving DecidableEq, Repr

/-- Collaborator calls of the driver that return a clear value. -/
inductive ClearCall where
  /-- `output.finalize_open()` -/
  | finalize_open
  deriving DecidableEq, Repr

/-- Entries of the call log. -/
inductive Ev (Sh Clr : Type) where
  /-- `main` enters `run<T>(argv, prime_length)` -/
  | enter_run (T : ShareT) (prime_length : Int)
  | callV (c : VoidCall Sh)
  | callS (c : ShareCall)
  | callC (c : ClearCall)
  /-- a `void` call has returned -/
  | retV
  /-- a share-valued call has returned `s` -/
  | retS (s : Sh)
  /-- a clear-valued call has returned `v` -/
  | retC (v : Clr)
  deriving DecidableEq, Repr

/-- What is inserted into an output stream with `<<`. -/
inductive Tok (Clr : Type) where
  /-- a character string -/
  | str (s : String)
  /-- a value of type `T::clear` -/
  | clear (v : Clr)
  /-- `endl` -/
  | endl
  deriving DecidableEq, Repr

/-- The singleton `ShamirOptions::s()`, as far as `main` touches it. -/
structure ShamirOptions where
  threshold : Int
  nparties : Int
  deriving DecidableEq, Repr

/-- The collaborators: for each call of the driver, its effect on the collaborators'
state `σ` and its result, or the error it throws. -/
structure Collab (σ Sh Clr : Type) where
  void : VoidCall Sh → σ → Except Err σ
  share : ShareCall → σ → Except Err (Sh × σ)
  clear : ClearCall → σ → Except Err (Clr × σ)

/-- The local variables of `run` (source lines 91-93): `vector<T> a, b; T c;
typename T::clear result`. -/
structure Locals (Sh Clr : Type) where
  a : List Sh
  b : List Sh
  c : Sh
  result : Clr

/-- Program state: the collaborators, the call log, the two output streams, the
`ShamirOptions` singleton and the local variables of `run`. -/
structure State (σ Sh Clr : Type) where
  env : σ
  trace : List (Ev Sh Clr)
  cout : List (Tok Clr)
  cerr : List (Tok Clr)
  shamir : ShamirOptions
  loc : Locals Sh Clr

/-- How the process ends. -/
inductive Status where
  /-- `exit(code)` -/
  | exit (code : Int)
  /-- `main` returns `code` -/
  | returned (code : Int)
  /-- an `assert` failed -/
  | assert_failed
  /-- a collaborator call threw `e` -/
  | threw (e : Err)
  deriving DecidableEq, Repr

/-! ## Statements as state transformers that may throw -/

/-- A statement: from a state to a value or a thrown error, and the state reached. -/
def Step (S α : Type) : Type := S → Except Err α × S

/-- Sequencing: a thrown error skips the rest. -/
def Step.bind {S α β : Type} (p : Step S α) (f : α → Step S β) : Step S β := fun s =>
  match p s with
  | (Except.ok x, t) => f x t
  | (Except.error e, t) => (Except.error e, t)

instance {S : Type} : Monad (Step S) where
  pure x := fun s => (Except.ok x, s)
  bind := Step.bind

/-- `for (int i = i0; i < i0 + k; i++) body(i)`, with `k` iterations left. -/
def forLoop {S : Type} (body : Nat → Step S Unit) : Nat → Nat → Step S Unit
  | _, 0 => pure ()
  | i, k + 1 => body i >>= fun _ => forLoop body (i + 1) k

variable {σ Sh Clr : Type}

/-- Append an entry to the call log. -/
def logEv (e : Ev Sh Clr) (s : State σ Sh Clr) : State σ Sh Clr :=
  { s with trace := s.trace ++ [e] }

/-- A collaborator call returning nothing; its arguments may be local variables. -/
def callV (cl : Collab σ Sh Clr) (c : Locals Sh Clr → VoidCall Sh) :
    Step (State σ Sh Clr) Unit := fun s =>
  match cl.void (c s.loc) s.env with
  | Except.ok env =>
      (Except.ok (), logEv Ev.retV { logEv (Ev.callV (c s.loc)) s with env := env })
  | Except.error e => (Except.error e, logEv (Ev.callV (c s.loc)) s)

/-- A collaborator call returning a share. -/
def callS (cl : Collab σ Sh Clr) (c : ShareCall) : Step (State σ Sh Clr) Sh := fun s =>
  match cl.share c s.env with
  | Except.ok (x, env) => (Except.ok x, logEv (Ev.retS x) { logEv (Ev.callS c) s with env := env })
  | Except.error e => (Except.error e, logEv (Ev.callS c) s)

/-- A collaborator call returning a clear value. -/
def callC (cl : Collab σ Sh Clr) (c : ClearCall) : Step (State σ Sh Clr) Clr := fun s =>
  match cl.clear c s.env with
  | Except.ok (v, env) => (Except.ok v, logEv (Ev.retC v) { logEv (Ev.callC c) s with env := env })
  | Except.error e => (Except.error e, logEv (Ev.callC c) s)

/-- An assignment to the local variables. -/
def assign (f : Locals Sh Clr → Locals Sh Clr) : Step (State σ Sh Clr) Unit := fun s =>
  (Except.ok (), { s with loc := f s.loc })

/-- Insertion into `cout` of tokens that may show local variables. -/
def print (f : Locals Sh Clr → List (Tok Clr)) : Step (State σ Sh Clr) Unit := fun s =>
  (Except.ok (), { s with cout := s.cout ++ f s.loc })

/-! ## `atoi` and `argv` -/

/-- The characters `isspace` accepts in the C locale. -/
def isspace (ch : Char) : Bool :=
  ch = ' ' || ch = '\t' || ch = '\n' || ch = '\x0b' || ch = '\x0c' || ch = '\r'

/-- Value of the longest run of decimal digits at the head of `cs`, after `acc`. -/
def atoiDigits : List Char → Nat → Nat
  | [], acc => acc
  | ch :: cs, acc => if ch.isDigit then atoiDigits cs (10 * acc + (ch.toNat - 48)) else acc

/-- Conversion to the 32-bit type `int`: the value in `[-2^31, 2^31)` congruent to `x`
modulo `2^32`. -/
def wrapInt (x : Int) : Int := (x + 2147483648) % 4294967296 - 2147483648

/-- Saturation of `strtol` at `LONG_MIN` and `LONG_MAX`, for a 64-bit `long`. -/
def clampLong (x : Int) : Int :=
  if x < -9223372036854775808 then -9223372036854775808
  else if 9223372036854775807 < x then 9223372036854775807
  else x

/-- C `strtol(str, NULL, 10)`: skip white space, read an optional sign and the decimal
digits that follow (`0` when there are none), saturating at the range of `long`. -/
def strtol (str : String) : Int :=
  match str.toList.dropWhile isspace with
  | '-' :: cs => clampLong (- (atoiDigits cs 0 : Int))
  | '+' :: cs => clampLong (atoiDigits cs 0 : Int)
  | cs => clampLong (atoiDigits cs 0 : Int)

/-- C `atoi`: `(int) strtol(str, NULL, 10)`. -/
def atoi (str : String) : Int := wrapInt (strtol str)

/-- `argv[k]`.  The driver reads `argv[k]` only for `k < argc`, except `argv[0]` in the
usage message. -/
def argvAt (argv : List String) (k : Nat) : String := argv.getD k ""

/-! ## `run` -/

/-- The line `cout << "result: " << result << endl`. -/
def resultLine (v : Clr) : List (Tok Clr) := [Tok.str "result: ", Tok.clear v, Tok.endl]

/-- Body of `run<T>` (source lines 71-124) with the vector length `n` (source line 90:
`int n = 1000`) as a parameter. -/
def runWith [Inhabited Sh] [Inhabited Clr] (cl : Collab σ Sh Clr) (n : Nat)
    (argv : List String) (prime_length : Int) : Step (State σ Sh Clr) Unit := do
  -- set up networking on localhost
  let my_number := atoi (argvAt argv 1)
  let n_parties := atoi (argvAt argv 2)
  let port_base : Int := 9999
  callV cl fun _ => VoidCall.Names my_number n_parties "localhost" port_base
  callV cl fun _ => VoidCall.CryptoPlayer
  -- protocol setup (domain, MAC key if needed etc)
  callV cl fun _ => VoidCall.ProtocolSetup prime_length
  -- set of protocols (input, multiplication, output)
  callV cl fun _ => VoidCall.ProtocolSet
  -- vector<T> a(n), b(n); T c; typename T::clear result;
  assign fun _ => { a := List.replicate n default, b := List.replicate n default,
                    c := default, result := default }
  callV cl fun _ => VoidCall.input_reset_all
  forLoop (fun i => callV cl fun _ => VoidCall.input_add_from_all i) 0 n
  callV cl fun _ => VoidCall.input_exchange
  forLoop (fun i => do
    let x ← callS cl (ShareCall.input_finalize 0)
    assign fun L => { L with a := L.a.set i x }
    let y ← callS cl (ShareCall.input_finalize 1)
    assign fun L => { L with b := L.b.set i y }) 0 n
  callV cl fun _ => VoidCall.init_dotprod
  forLoop (fun i =>
    callV cl fun L => VoidCall.prepare_dotprod (L.a.getD i default) (L.b.getD i default)) 0 n
  callV cl fun _ => VoidCall.next_dotprod
  callV cl fun _ => VoidCall.protocol_exchange
  let c ← callS cl (ShareCall.finalize_dotprod n)
  assign fun L => { L with c := c }
  -- protocol check before revealing results
  callV cl fun _ => VoidCall.protocol_check
  callV cl fun _ => VoidCall.init_open
  callV cl fun L => VoidCall.prepare_open L.c
  callV cl fun _ => VoidCall.output_exchange
  let r ← callC cl ClearCall.finalize_open
  assign fun L => { L with result := r }
  print fun L => resultLine L.result
  -- result check after opening
  callV cl fun _ => VoidCall.output_Check

/-- The function `run<T>`: `runWith` at the vector length `n = 1000` of the source. -/
def run [Inhabited Sh] [Inhabited Clr] (cl : Collab σ Sh Clr)
    (argv : List String) (prime_length : Int) : Step (State σ Sh Clr) Unit :=
  runWith cl 1000 argv prime_length

/-! ## The fixed script of `run` -/

/-- Log of a loop: the entries `f i` of the iterations `i, i + 1, ..., i + k - 1`. -/
def iterLog (f : Nat → List (Ev Sh Clr)) : Nat → Nat → List (Ev Sh Clr)
  | _, 0 => []
  | i, k + 1 => f i ++ iterLog f (i + 1) k

/-- Log of iteration `i` of the loop of source lines 96-97. -/
def addIter (i : Nat) : List (Ev Sh Clr) :=
  [Ev.callV (VoidCall.input_add_from_all i), Ev.retV]

/-- Log of iteration `i` of the loop of source lines 99-103: the shares returned are the
ones stored in `a[i]` and `b[i]`. -/
def finIter [Inhabited Sh] (a b : List Sh) (i : Nat) : List (Ev Sh Clr) :=
  [Ev.callS (ShareCall.input_finalize 0), Ev.retS (a.getD i default),
   Ev.callS (ShareCall.input_finalize 1), Ev.retS (b.getD i default)]

/-- Log of iteration `i` of the loop of source lines 106-107. -/
def prepIter [Inhabited Sh] (a b : List Sh) (i : Nat) : List (Ev Sh Clr) :=
  [Ev.callV (VoidCall.prepare_dotprod (a.getD i default) (b.getD i default)), Ev.retV]

/-- Setup (source lines 74-88). -/
def setupPhase (argv : List String) (prime_length : Int) : List (Ev Sh Clr) :=
  [Ev.callV (VoidCall.Names (atoi (argvAt argv 1)) (atoi (argvAt argv 2)) "localhost" 9999),
   Ev.retV,
   Ev.callV VoidCall.CryptoPlayer, Ev.retV,
   Ev.callV (VoidCall.ProtocolSetup prime_length), Ev.retV,
   Ev.callV VoidCall.ProtocolSet, Ev.retV]

/-- Input (source lines 95-103). -/
def inputPhase [Inhabited Sh] (n : Nat) (a b : List Sh) : List (Ev Sh Clr) :=
  [Ev.callV VoidCall.input_reset_all, Ev.retV] ++ iterLog addIter 0 n ++
  [Ev.callV VoidCall.input_exchange, Ev.retV] ++ iterLog (finIter a b) 0 n

/-- Dot product (source lines 105-110). -/
def dotprodPhase [Inhabited Sh] (n : Nat) (a b : List Sh) (c : Sh) : List (Ev Sh Clr) :=
  [Ev.callV VoidCall.init_dotprod, Ev.retV] ++ iterLog (prepIter a b) 0 n ++
  [Ev.callV VoidCall.next_dotprod, Ev.retV,
   Ev.callV VoidCall.protocol_exchange, Ev.retV,
   Ev.callS (ShareCall.finalize_dotprod n), Ev.retS c]

/-- The check of the multiplications (source line 113). -/
def checkPhase : List (Ev Sh Clr) :=
  [Ev.callV VoidCall.protocol_check, Ev.retV]

/-- Opening (source lines 115-118). -/
def openPhase (c : Sh) (result : Clr) : List (Ev Sh Clr) :=
  [Ev.callV VoidCall.init_open, Ev.retV,
   Ev.callV (VoidCall.prepare_open c), Ev.retV,
   Ev.callV VoidCall.output_exchange, Ev.retV,
   Ev.callC ClearCall.finalize_open, Ev.retC result]

/-- The check of the opened value (source line 123). -/
def finalCheck : List (Ev Sh Clr) :=
  [Ev.callV VoidCall.output_Check, Ev.retV]

/-- The log of `run` up to the point where the result is printed (source line 120),
for the values `L` of the local variables. -/
def scriptBody [Inhabited Sh] (n : Nat) (argv : List String) (prime_length : Int)
    (L : Locals Sh Clr) : List (Ev Sh Clr) :=
  setupPhase argv prime_length ++ inputPhase n L.a L.b ++ dotprodPhase n L.a L.b L.c ++
  checkPhase ++ openPhase L.c L.result

/-- The log of a complete `run`. -/
def script [Inhabited Sh] (n : Nat) (argv : List String) (prime_length : Int)
    (L : Locals Sh Clr) : List (Ev Sh Clr) :=
  scriptBody n argv prime_length L ++ finalCheck

/-! ## `main` -/

/-- The call `run<T>(argv, prime_length)` in `main`, and what follows it: `main` returns
`0` when `run` returns, and the process is terminated when `run` throws. -/
def callRun [Inhabited Sh] [Inhabited Clr] (B : ShareT → Collab σ Sh Clr) (T : ShareT)
    (argv : List String) (prime_length : Int) (s : State σ Sh Clr) :
    Status × State σ Sh Clr :=
  match run (B T) argv prime_length (logEv (Ev.enter_run T prime_length) s) with
  | (Except.ok _, t) => (Status.returned 0, t)
  | (Except.error e, t) => (Status.threw e, t)

/-- The usage message of `main` (source line 33). -/
def usageLine (argv : List String) : List (Tok Clr) :=
  [Tok.str "Usage: ", Tok.str (argvAt argv 0),
   Tok.str "<my number: 0/1/...> <total number of players> [protocol [threshold]]", Tok.endl]

/-- The message of `main` for a protocol name it does not know (source line 66). -/
def unknownLine (protocol : String) : List (Tok Clr) :=
  [Tok.str "Unknown protocol: ", Tok.str protocol, Tok.endl]

/-- The protocol name `main` dispatches on (source lines 37-39). -/
def protocolName (argv : List String) : String :=
  if (argv.length : Int) > 3 then argvAt argv 3 else "MASCOT"

/-- The threshold `main` computes for the Shamir backends (source lines 51-54). -/
def shamirThreshold (argv : List String) : Int :=
  let nparties := atoi (argvAt argv 2)
  if (argv.length : Int) > 4 then atoi (argvAt argv 4) else (wrapInt (nparties - 1)).tdiv 2

/-- The function `main` (source lines 22-69); `B T` are the collaborators of the
instance `run<T>`. -/
def main [Inhabited Sh] [Inhabited Clr] (B : ShareT → Collab σ Sh Clr)
    (argv : List String) (s : State σ Sh Clr) : Status × State σ Sh Clr :=
  let argc : Int := argv.length
  -- bit length of prime
  let prime_length : Int := 128
  -- compute number of 64-bit words needed
  let n_limbs : Int := (prime_length + 63).tdiv 64
  -- need player number and number of players
  if argc < 3 then
    (Status.exit 1, { s with cerr := s.cerr ++ usageLine argv })
  else
    let protocol := protocolName argv
    if protocol = "MASCOT" then
      callRun B (ShareT.Share 0 n_limbs) argv prime_length s
    else if protocol = "CowGear" then
      callRun B (ShareT.CowGearShare 0 n_limbs) argv prime_length s
    else if protocol = "SPDZ2k" then
      callRun B (ShareT.Spdz2kShare 64 64) argv 0 s
    else if protocol = "Semi2k" then
      callRun B (ShareT.Semi2kShare 64) argv 0 s
    else if protocol = "Shamir" ∨ protocol = "MalShamir" then
      let nparties := atoi (argvAt argv 2)
      let threshold := shamirThreshold argv
      if ¬ (wrapInt (2 * threshold) < nparties) then
        (Status.assert_failed, s)
      else
        let s1 := { s with shamir := { threshold := threshold, nparties := nparties } }
        if protocol = "Shamir" then
          callRun B (ShareT.ShamirShare 0 n_limbs) argv prime_length s1
        else
          callRun B (ShareT.MaliciousShamirShare 0 n_limbs) argv prime_length s1
    else
      (Status.exit 1, { s with cerr := s.cerr ++ unknownLine protocol })

/-! ## Ideal collaborators

The classes behind `input`, `protocol` and `output` are not part of the embedded file.
The model below follows sections 4.2 to 4.4 of the specification: an ideal
functionality in which a share stands for the value it shares. -/

/-- Modelled from the spec: the states of the input protocol, which is absent from the
embedded file (section 4.2: `Idle -> Collecting -> Exchanged`; the per-owner cursors
play the role of `Finalized(i)`). -/
inductive InPhase where
  | Idle
  | Collecting
  | Exchanged
  deriving DecidableEq, Repr

/-- Modelled from the spec: the state of the ideal collaborators, which are absent from
the embedded file.  `values[p]` is the party-local list of party `p` (section 4.2);
`mulTampered` and `outTampered` say whether a party deviated so that the MAC check of
the multiplications (section 4.3, `check`) or of the opened value (section 4.4,
`Check`) is inconsistent. -/
structure Ideal where
  /-- the modulus of the field or ring of the backend -/
  modulus : Int
  values : List (List Int)
  mulTampered : Bool
  outTampered : Bool
  /-- the party count given to `Names` -/
  nparties : Int
  inPhase : InPhase
  /-- positions declared with `add_from_all` in the current batch -/
  declared : List Int
  /-- per owner, how many of its shares have been finalized -/
  cursor : Int → Nat
  /-- the dot-product accumulator and the number of pairs accumulated -/
  acc : Int
  count : Nat
  /-- the accumulation closed by `next_dotprod`, with its number of pairs -/
  staged : Option (Int × Nat)
  /-- the product sum after `exchange` -/
  product : Option (Int × Nat)
  /-- shares staged with `prepare_open` -/
  opening : List Int
  /-- values reconstructed by `output.exchange`, not yet returned -/
  opened : Option (List Int)

/-- Modelled from the spec: the value party `owner` contributes at position `idx` of its
party-local list (section 4.2, `add_from_all`), as an element of the field. -/
def Ideal.contributed (e : Ideal) (owner idx : Int) : Int :=
  ((e.values.getD owner.toNat []).getD idx.toNat 0) % e.modulus

/-- Modelled from the spec: the calls without result on the ideal collaborators, which
are absent from the embedded file (sections 4.1 to 4.4).  Misuse of the input state
machine is a `ProtocolError`; a failed MAC check is an `IntegrityCheckFailure`. -/
def Ideal.void (c : VoidCall Int) (e : Ideal) : Except Err Ideal :=
  match c with
  | VoidCall.Names _ n_parties _ _ => Except.ok { e with nparties := n_parties }
  | VoidCall.CryptoPlayer => Except.ok e
  | VoidCall.ProtocolSetup _ => Except.ok e
  | VoidCall.ProtocolSet => Except.ok e
  | VoidCall.input_reset_all =>
      Except.ok { e with inPhase := InPhase.Collecting, declared := [], cursor := fun _ => 0 }
  | VoidCall.input_add_from_all i =>
      if e.inPhase = InPhase.Collecting then
        Except.ok { e with declared := e.declared ++ [i] }
      else Except.error Err.ProtocolError
  | VoidCall.input_exchange =>
      if e.inPhase = InPhase.Collecting then
        Except.ok { e with inPhase := InPhase.Exchanged }
      else Except.error Err.ProtocolError
  | VoidCall.init_dotprod => Except.ok { e with acc := 0, count := 0 }
  | VoidCall.prepare_dotprod x y =>
      Except.ok { e with acc := (e.acc + x * y) % e.modulus, count := e.count + 1 }
  | VoidCall.next_dotprod =>
      Except.ok { e with staged := some (e.acc, e.count), acc := 0, count := 0 }
  | VoidCall.protocol_exchange =>
      match e.staged with
      | some r => Except.ok { e with product := some r, staged := none }
      | none => Except.error Err.ProtocolError
  | VoidCall.protocol_check =>
      if e.mulTampered then Except.error Err.IntegrityCheckFailure else Except.ok e
  | VoidCall.init_open => Except.ok { e with opening := [], opened := none }
  | VoidCall.prepare_open c => Except.ok { e with opening := e.opening ++ [c] }
  | VoidCall.output_exchange => Except.ok { e with opened := some e.opening, opening := [] }
  | VoidCall.output_Check =>
      if e.outTampered then Except.error Err.IntegrityCheckFailure else Except.ok e

/-- Modelled from the spec: the share-valued calls on the ideal collaborators, which are
absent from the embedded file.  `finalize(owner)` is a `ProtocolError` before
`exchange`, for an owner that is not a party, and past the number of declared
contributions (section 4.2); `finalize_dotprod(n)` is a `ProtocolError` before
`exchange` and on a count mismatch (section 4.3). -/
def Ideal.share (c : ShareCall) (e : Ideal) : Except Err (Int × Ideal) :=
  match c with
  | ShareCall.input_finalize owner =>
      if e.inPhase = InPhase.Exchanged ∧ 0 ≤ owner ∧ owner < e.nparties ∧
          e.cursor owner < e.declared.length then
        let next := e.cursor owner + 1
        Except.ok (e.contributed owner (e.declared.getD (e.cursor owner) 0),
          { e with cursor := fun p => if p = owner then next else e.cursor p })
      else Except.error Err.ProtocolError
  | ShareCall.finalize_dotprod n =>
      match e.product with
      | some (v, k) =>
          if (k : Int) = n then Except.ok (v, { e with product := none })
          else Except.error Err.ProtocolError
      | none => Except.error Err.ProtocolError

/-- Modelled from the spec: the clear-valued call on the ideal collaborators, which is
absent from the embedded file.  `finalize_open` returns the reconstructed values in
staging order (section 4.4) and is a `ProtocolError` when none is left. -/
def Ideal.clear (c : ClearCall) (e : Ideal) : Except Err (Int × Ideal) :=
  match c with
  | ClearCall.finalize_open =>
      match e.opened with
      | some (v :: rest) => Except.ok (v, { e with opened := some rest })
      | _ => Except.error Err.ProtocolError

/-- Modelled from the spec: the ideal collaborators as a `Collab`. -/
def idealCollab : Collab Ideal Int Int :=
  { void := Ideal.void, share := Ideal.share, clear := Ideal.clear }

/-- The sum of the products `a[i] * b[i]` for `i < j`. -/
def dotUpTo (a b : List Int) (j : Nat) : Int :=
  ((List.range j).map fun i => a.getD i 0 * b.getD i 0).sum

/-! ## Reading the call log -/

/-- The entries logged since the state `s0`. -/
def newLog (s0 t : State σ Sh Clr) : List (Ev Sh Clr) := t.trace.drop s0.trace.length

/-- Which member function a log entry calls, whatever its arguments. -/
inductive Kind where
  | enter_run
  | Names
  | CryptoPlayer
  | ProtocolSetup
  | ProtocolSet
  | input_reset_all
  | input_add_from_all
  | input_exchange
  | input_finalize
  | init_dotprod
  | prepare_dotprod
  | next_dotprod
  | protocol_exchange
  | finalize_dotprod
  | protocol_check
  | init_open
  | prepare_open
  | output_exchange
  | finalize_open
  | output_Check
  /-- the entry is a return, not a call -/
  | ret
  deriving DecidableEq, Repr

/-- The member function of a call without result. -/
def VoidCall.kind : VoidCall Sh → Kind
  | VoidCall.Names _ _ _ _ => Kind.Names
  | VoidCall.CryptoPlayer => Kind.CryptoPlayer
  | VoidCall.ProtocolSetup _ => Kind.ProtocolSetup
  | VoidCall.ProtocolSet => Kind.ProtocolSet
  | VoidCall.input_reset_all => Kind.input_reset_all
  | VoidCall.input_add_from_all _ => Kind.input_add_from_all
  | VoidCall.input_exchange => Kind.input_exchange
  | VoidCall.init_dotprod => Kind.init_dotprod
  | VoidCall.prepare_dotprod _ _ => Kind.prepare_dotprod
  | VoidCall.next_dotprod => Kind.next_dotprod
  | VoidCall.protocol_exchange => Kind.protocol_exchange
  | VoidCall.protocol_check => Kind.protocol_check
  | VoidCall.init_open => Kind.init_open
  | VoidCall.prepare_open _ => Kind.prepare_open
  | VoidCall.output_exchange => Kind.output_exchange
  | VoidCall.output_Check => Kind.output_Check

/-- The member function of a log entry. -/
def Ev.kind : Ev Sh Clr → Kind
  | Ev.enter_run _ _ => Kind.enter_run
  | Ev.callV c => c.kind
  | Ev.callS (ShareCall.input_finalize _) => Kind.input_finalize
  | Ev.callS (ShareCall.finalize_dotprod _) => Kind.finalize_dotprod
  | Ev.callC ClearCall.finalize_open => Kind.finalize_open
  | Ev.retV => Kind.ret
  | Ev.retS _ => Kind.ret
  | Ev.retC _ => Kind.ret

/-- Number of calls of the member function `k` in a log. -/
def calls (k : Kind) (l : List (Ev Sh Clr)) : Nat := l.countP fun e => e.kind == k

/-- Whether a log entry is the call `input.finalize(owner)`. -/
def Ev.isFinalize (owner : Int) : Ev Sh Clr → Bool
  | Ev.callS (ShareCall.input_finalize o) => o == owner
  | _ => false

/-- Number of calls `input.finalize(owner)` in a log. -/
def finalizeCalls (owner : Int) (l : List (Ev Sh Clr)) : Nat :=
  l.countP (Ev.isFinalize owner)

/-- The calls on the `output` member of the protocol set. -/
def Kind.isOutput : Kind → Bool
  | Kind.init_open => true
  | Kind.prepare_open => true
  | Kind.output_exchange => true
  | Kind.finalize_open => true
  | Kind.output_Check => true
  | _ => false

/-- The six protocol names `main` knows. -/
def knownProtocols : List String :=
  ["MASCOT", "CowGear", "SPDZ2k", "Semi2k", "Shamir", "MalShamir"]

/-! ## Concrete inputs -/

/-- An initial state of the ideal collaborators for two honest parties holding
`[1, 2, 3]` and `[4, 5, 6]`, over a field with a 128-bit modulus. -/
def honestEnv : Ideal :=
  { modulus := 2 ^ 128 - 159, values := [[1, 2, 3], [4, 5, 6]], mulTampered := false,
    outTampered := false, nparties := 0, inPhase := InPhase.Idle, declared := [],
    cursor := fun _ => 0, acc := 0, count := 0, staged := none, product := none,
    opening := [], opened := none }

/-- The same initial state, except that a party corrupts a MAC share of the opened value,
so that `output.Check` reports an integrity failure. -/
def tamperedEnv : Ideal := { honestEnv with outTampered := true }

/-- The program state at the start of the process, over the collaborators `env`. -/
def startState (env : Ideal) : State Ideal Int Int :=
  { env := env, trace := [], cout := [], cerr := [],
    shamir := { threshold := 0, nparties := 0 },
    loc := { a := [], b := [], c := 0, result := 0 } }

/-- The ideal collaborators for every share type. -/
def idealBackends : ShareT → Collab Ideal Int Int := fun _ => idealCollab

/-! ## Assertions about statements and states -/

/-- From a state satisfying `P`, the statement `p` either returns `x` in a state
satisfying `Q x` or throws `e` in a state satisfying `E e`. -/
def Triple {S α : Type} (P : S → Prop) (p : Step S α) (Q : α → S → Prop)
    (E : Err → S → Prop) : Prop :=
  ∀ s, P s → (∀ x t, p s = (Except.ok x, t) → Q x t) ∧
    (∀ e t, p s = (Except.error e, t) → E e t)

/-- The run started in `s0` has logged exactly `pre` so far, without printing, and its
locals satisfy `R`. -/
def At (s0 : State σ Sh Clr) (R : Locals Sh Clr → Prop)
    (pre : Locals Sh Clr → List (Ev Sh Clr)) (s : State σ Sh Clr) : Prop :=
  R s.loc ∧ s.trace = s0.trace ++ pre s.loc ∧ s.cout = s0.cout ∧ s.cerr = s0.cerr ∧
    s.shamir = s0.shamir

/-- The run started in `s0` was aborted before the end of `bodyF`, without printing:
its log ends with the call that threw. -/
def Early (s0 : State σ Sh Clr) (bodyF : Locals Sh Clr → List (Ev Sh Clr))
    (t : State σ Sh Clr) : Prop :=
  (∃ l u c, l ++ c :: u = bodyF t.loc ∧ u ≠ [] ∧ t.trace = s0.trace ++ l ++ [c]) ∧
    t.cout = s0.cout ∧ t.cerr = s0.cerr ∧ t.shamir = s0.shamir

/-- Both vectors have `n` elements. -/
def Len (n : Nat) (L : Locals Sh Clr) : Prop := L.a.length = n ∧ L.b.length = n

/-- The run started in `s0` is complete. -/
def Done [Inhabited Sh] (s0 : State σ Sh Clr) (n : Nat) (argv : List String)
    (prime_length : Int) (t : State σ Sh Clr) : Prop :=
  t.trace = s0.trace ++ script n argv prime_length t.loc ∧
    t.cout = s0.cout ++ resultLine t.loc.result ∧ t.cerr = s0.cerr ∧
    t.shamir = s0.shamir ∧ Len n t.loc

/-- The run started in `s0` was aborted by `output.Check`. -/
def Late [Inhabited Sh] (s0 : State σ Sh Clr) (n : Nat) (argv : List String)
    (prime_length : Int) (t : State σ Sh Clr) : Prop :=
  t.trace = s0.trace ++ scriptBody n argv prime_length t.loc ++
      [Ev.callV VoidCall.output_Check] ∧
    t.cout = s0.cout ++ resultLine t.loc.result ∧ t.cerr = s0.cerr ∧
    t.shamir = s0.shamir ∧ Len n t.loc

/-- What the ideal collaborators never change after `Names`; nothing is printed yet. -/
def ICore (e0 : Ideal) (np : Int) (O0 : List (Tok Int)) (s : State Ideal Int Int) : Prop :=
  s.env.modulus = e0.modulus ∧ s.env.values = e0.values ∧
    s.env.mulTampered = e0.mulTampered ∧ s.env.outTampered = e0.outTampered ∧
    s.env.nparties = np ∧ s.cout = O0

/-- The first `j` elements of `a` and `b` are the values contributed by parties 0 and 1. -/
def Filled (e0 : Ideal) (j : Nat) (L : Locals Int Int) : Prop :=
  ∀ i, i < j → L.a.getD i default = e0.contributed 0 i ∧
    L.b.getD i default = e0.contributed 1 i

/-- The opened value of the ideal run: the dot product of the first two parties' lists,
in the field. -/
def idealResult (e0 : Ideal) (n : Nat) : Int :=
  dotUpTo (e0.values.getD 0 []) (e0.values.getD 1 []) n % e0.modulus

/-! ## Reasoning about statements -/

theorem bind_def {S α β : Type} (p : Step S α) (f : α → Step S β) :
    (p >>= f) = Step.bind p f := rfl

theorem pure_def {S α : Type} (x : α) (s : S) :
    (pure x : Step S α) s = (Except.ok x, s) := rfl

theorem bind_ok {S α β : Type} {p : Step S α} {f : α → Step S β} {s t : S} {x : α}
    (h : p s = (Except.ok x, t)) : (p >>= f) s = f x t := by
  simp [bind_def, Step.bind, h]

theorem bind_error {S α β : Type} {p : Step S α} {f : α → Step S β} {s t : S} {e : Err}
    (h : p s = (Except.error e, t)) : (p >>= f) s = (Except.error e, t) := by
  simp [bind_def, Step.bind, h]

theorem step_cases {S α : Type} (p : Step S α) (s : S) :
    (∃ x t, p s = (Except.ok x, t)) ∨ (∃ e t, p s = (Except.error e, t)) := by
  rcases h : p s with ⟨r, t⟩
  cases r with
  | ok x => exact Or.inl ⟨x, t, rfl⟩
  | error e => exact Or.inr ⟨e, t, rfl⟩

theorem bind_assoc_step {S α β γ : Type} (p : Step S α) (f : α → Step S β)
    (g : β → Step S γ) : (p >>= f) >>= g = p >>= fun x => f x >>= g := by
  funext s
  rcases step_cases p s with ⟨x, t, h⟩ | ⟨e, t, h⟩
  · have h1 : (p >>= f) s = f x t := bind_ok h
    rw [bind_ok h]
    rcases step_cases (f x) t with ⟨y, u, h2⟩ | ⟨e, u, h2⟩
    · rw [bind_ok (h1.trans h2), bind_ok h2]
    · rw [bind_error (h1.trans h2), bind_error h2]
  · rw [bind_error (bind_error h), bind_error h]

theorem triple_bind {S α β : Type} {P : S → Prop} {p : Step S α} {Q : α → S → Prop}
    {f : α → Step S β} {R : β → S → Prop} {E : Err → S → Prop}
    (hp : Triple P p Q E) (hf : ∀ x, Triple (Q x) (f x) R E) :
    Triple P (p >>= f) R E := by
  intro s hs
  rcases step_cases p s with ⟨x, t, h⟩ | ⟨e, t, h⟩
  · rw [bind_ok h]
    exact hf x t ((hp s hs).1 x t h)
  · rw [bind_error h]
    refine ⟨fun x u hu => ?_, fun e2 u hu => ?_⟩
    · simp at hu
    · simp at hu
      rcases hu with ⟨rfl, rfl⟩
      exact (hp s hs).2 _ _ h

theorem triple_conseq {S α : Type} {P P2 : S → Prop} {p : Step S α} {Q Q2 : α → S → Prop}
    {E E2 : Err → S → Prop} (h : Triple P p Q E) (hP : ∀ s, P2 s → P s)
    (hQ : ∀ x s, Q x s → Q2 x s) (hE : ∀ e s, E e s → E2 e s) : Triple P2 p Q2 E2 := by
  intro s hs
  exact ⟨fun x t ht => hQ _ _ ((h s (hP s hs)).1 x t ht),
    fun e t ht => hE _ _ ((h s (hP s hs)).2 e t ht)⟩

theorem triple_pure {S α : Type} {P : S → Prop} {Q : α → S → Prop} {E : Err → S → Prop}
    (x : α) (h : ∀ s, P s → Q x s) : Triple P (pure x : Step S α) Q E := by
  intro s hs
  refine ⟨fun y t ht => ?_, fun e t ht => ?_⟩
  · rw [pure_def] at ht
    simp at ht
    rcases ht with ⟨rfl, rfl⟩
    exact h s hs
  · rw [pure_def] at ht
    simp at ht

theorem triple_forLoop {S : Type} {body : Nat → Step S Unit} (I : Nat → S → Prop)
    {E : Err → S → Prop} (k : Nat) :
    ∀ (i : Nat), (∀ j, i ≤ j → j < i + k → Triple (I j) (body j) (fun _ => I (j + 1)) E) →
      Triple (I i) (forLoop body i k) (fun _ => I (i + k)) E := by
  induction k with
  | zero =>
    intro i _
    exact triple_pure () (fun s hs => hs)
  | succ k ih =>
    intro i h
    have h1 := h i (Nat.le_refl i) (by omega)
    have h2 := ih (i + 1) (fun j hj1 hj2 => h j (by omega) (by omega))
    have h3 : i + 1 + k = i + (k + 1) := by omega
    rw [h3] at h2
    exact triple_bind h1 (fun _ => h2)

theorem triple_callV {P : State σ Sh Clr → Prop} {Q : Unit → State σ Sh Clr → Prop}
    {E : Err → State σ Sh Clr → Prop} (cl : Collab σ Sh Clr) (c : Locals Sh Clr → VoidCall Sh)
    (hok : ∀ s env, P s → cl.void (c s.loc) s.env = Except.ok env →
      Q () (logEv Ev.retV { logEv (Ev.callV (c s.loc)) s with env := env }))
    (herr : ∀ s e, P s → cl.void (c s.loc) s.env = Except.error e →
      E e (logEv (Ev.callV (c s.loc)) s)) :
    Triple P (callV cl c) Q E := by
  intro s hs
  unfold callV
  cases h : cl.void (c s.loc) s.env with
  | ok env =>
    refine ⟨fun x t ht => ?_, fun e t ht => ?_⟩
    · simp at ht
      rw [← ht]
      exact hok s env hs h
    · simp at ht
  | error e =>
    refine ⟨fun x t ht => ?_, fun e2 t ht => ?_⟩
    · simp at ht
    · simp at ht
      rcases ht with ⟨rfl, rfl⟩
      exact herr s e hs h

theorem triple_callS {P : State σ Sh Clr → Prop} {Q : Sh → State σ Sh Clr → Prop}
    {E : Err → State σ Sh Clr → Prop} (cl : Collab σ Sh Clr) (c : ShareCall)
    (hok : ∀ s x env, P s → cl.share c s.env = Except.ok (x, env) →
      Q x (logEv (Ev.retS x) { logEv (Ev.callS c) s with env := env }))
    (herr : ∀ s e, P s → cl.share c s.env = Except.error e →
      E e (logEv (Ev.callS c) s)) :
    Triple P (callS cl c) Q E := by
  intro s hs
  unfold callS
  cases h : cl.share c s.env with
  | ok r =>
    rcases r with ⟨x, env⟩
    refine ⟨fun y t ht => ?_, fun e t ht => ?_⟩
    · simp at ht
      rcases ht with ⟨rfl, rfl⟩
      exact hok s x env hs h
    · simp at ht
  | error e =>
    refine ⟨fun x t ht => ?_, fun e2 t ht => ?_⟩
    · simp at ht
    · simp at ht
      rcases ht with ⟨rfl, rfl⟩
      exact herr s e hs h

theorem triple_callC {P : State σ Sh Clr → Prop} {Q : Clr → State σ Sh Clr → Prop}
    {E : Err → State σ Sh Clr → Prop} (cl : Collab σ Sh Clr) (c : ClearCall)
    (hok : ∀ s x env, P s → cl.clear c s.env = Except.ok (x, env) →
      Q x (logEv (Ev.retC x) { logEv (Ev.callC c) s with env := env }))
    (herr : ∀ s e, P s → cl.clear c s.env = Except.error e →
      E e (logEv (Ev.callC c) s)) :
    Triple P (callC cl c) Q E := by
  intro s hs
  unfold callC
  cases h : cl.clear c s.env with
  | ok r =>
    rcases r with ⟨x, env⟩
    refine ⟨fun y t ht => ?_, fun e t ht => ?_⟩
    · simp at ht
      rcases ht with ⟨rfl, rfl⟩
      exact hok s x env hs h
    · simp at ht
  | error e =>
    refine ⟨fun x t ht => ?_, fun e2 t ht => ?_⟩
    · simp at ht
    · simp at ht
      rcases ht with ⟨rfl, rfl⟩
      exact herr s e hs h

theorem triple_assign {P : State σ Sh Clr → Prop} {Q : Unit → State σ Sh Clr → Prop}
    {E : Err → State σ Sh Clr → Prop} (f : Locals Sh Clr → Locals Sh Clr)
    (h : ∀ s, P s → Q () { s with loc := f s.loc }) :
    Triple P (assign f) Q E := by
  intro s hs
  unfold assign
  refine ⟨fun x t ht => ?_, fun e t ht => ?_⟩
  · simp at ht
    rw [← ht]
    exact h s hs
  · simp at ht

theorem triple_print {P : State σ Sh Clr → Prop} {Q : Unit → State σ Sh Clr → Prop}
    {E : Err → State σ Sh Clr → Prop} (f : Locals Sh Clr → List (Tok Clr))
    (h : ∀ s, P s → Q () { s with cout := s.cout ++ f s.loc }) :
    Triple P (print f) Q E := by
  intro s hs
  unfold print
  refine ⟨fun x t ht => ?_, fun e t ht => ?_⟩
  · simp at ht
    rw [← ht]
    exact h s hs
  · simp at ht

theorem iterLog_add (f : Nat → List (Ev Sh Clr)) (j : Nat) :
    ∀ (i k : Nat), iterLog f i (j + k) = iterLog f i j ++ iterLog f (i + j) k := by
  induction j with
  | zero => intro i k; simp [iterLog]
  | succ j ih =>
    intro i k
    have h : j + 1 + k = (j + k) + 1 := by omega
    rw [h]
    simp only [iterLog]
    rw [ih (i + 1) k]
    have h2 : i + 1 + j = i + (j + 1) := by omega
    rw [h2, List.append_assoc]

theorem iterLog_congr (f g : Nat → List (Ev Sh Clr)) (k : Nat) :
    ∀ (i : Nat), (∀ m, i ≤ m → m < i + k → f m = g m) → iterLog f i k = iterLog g i k := by
  induction k with
  | zero => intro i _; rfl
  | succ k ih =>
    intro i h
    simp only [iterLog]
    rw [h i (Nat.le_refl i) (by omega), ih (i + 1) (fun m h1 h2 => h m (by omega) (by omega))]

theorem iterLog_step (f : Nat → List (Ev Sh Clr)) (n j : Nat) (h : j < n) :
    iterLog f 0 n = iterLog f 0 j ++ (f j ++ iterLog f (j + 1) (n - (j + 1))) := by
  have h1 : n = j + ((n - (j + 1)) + 1) := by omega
  conv_lhs => rw [h1]
  rw [iterLog_add]
  simp [iterLog]

theorem iterLog_succ (f : Nat → List (Ev Sh Clr)) (j : Nat) :
    iterLog f 0 (j + 1) = iterLog f 0 j ++ f j := by
  rw [iterLog_add]
  simp [iterLog]

/-! ## `run` follows its script, whatever the collaborators do -/

theorem at_callV {s0 : State σ Sh Clr} {R : Locals Sh Clr → Prop}
    {bodyF pre rest : Locals Sh Clr → List (Ev Sh Clr)} {X : State σ Sh Clr → Prop}
    (cl : Collab σ Sh Clr) (c : Locals Sh Clr → VoidCall Sh)
    (hs : ∀ L, bodyF L = pre L ++ (Ev.callV (c L) :: Ev.retV :: rest L)) :
    Triple (At s0 R pre) (callV cl c)
      (fun _ => At s0 R (fun L => pre L ++ [Ev.callV (c L), Ev.retV]))
      (fun _ t => Early s0 bodyF t ∨ X t) := by
  apply triple_callV
  · intro s env h _
    rcases h with ⟨h1, h2, h3, h4, h5⟩
    exact ⟨h1, by simp [logEv, h2], h3, h4, h5⟩
  · intro s e h _
    rcases h with ⟨h1, h2, h3, h4, h5⟩
    refine Or.inl ⟨⟨pre s.loc, Ev.retV :: rest s.loc, Ev.callV (c s.loc), ?_, by simp, ?_⟩,
      h3, h4, h5⟩
    · exact (hs s.loc).symm
    · simp [logEv, h2]

theorem split_step {bodyF pre rest : Locals Sh Clr → List (Ev Sh Clr)}
    {x y : Locals Sh Clr → Ev Sh Clr}
    (hs : ∀ L, bodyF L = pre L ++ (x L :: y L :: rest L)) :
    ∀ L, bodyF L = (pre L ++ [x L, y L]) ++ rest L := by
  intro L
  rw [hs L]
  simp

theorem at_assign {s0 : State σ Sh Clr} {R R2 : Locals Sh Clr → Prop}
    {pre : Locals Sh Clr → List (Ev Sh Clr)} {E : Err → State σ Sh Clr → Prop}
    (f : Locals Sh Clr → Locals Sh Clr)
    (hpre : ∀ L, pre (f L) = pre L) (hR : ∀ L, R L → R2 (f L)) :
    Triple (At s0 R pre) (assign f) (fun _ => At s0 R2 pre) E := by
  apply triple_assign
  intro s h
  rcases h with ⟨h1, h2, h3, h4, h5⟩
  exact ⟨hR _ h1, by simp [h2, hpre], h3, h4, h5⟩

theorem at_callS_assign {s0 : State σ Sh Clr} {R : Locals Sh Clr → Prop}
    {bodyF pre rest : Locals Sh Clr → List (Ev Sh Clr)} {X : State σ Sh Clr → Prop}
    (cl : Collab σ Sh Clr) (c : ShareCall) (get : Locals Sh Clr → Sh)
    (set : Sh → Locals Sh Clr → Locals Sh Clr)
    (hs : ∀ L, bodyF L = pre L ++ (Ev.callS c :: Ev.retS (get L) :: rest L))
    (hget : ∀ L x, R L → get (set x L) = x)
    (hpre : ∀ L x, pre (set x L) = pre L)
    (hR : ∀ L x, R L → R (set x L)) :
    Triple (At s0 R pre) (callS cl c >>= fun x => assign (set x))
      (fun _ => At s0 R (fun L => pre L ++ [Ev.callS c, Ev.retS (get L)]))
      (fun _ t => Early s0 bodyF t ∨ X t) := by
  refine triple_bind
    (Q := fun x s => R s.loc ∧ s.trace = s0.trace ++ (pre s.loc ++ [Ev.callS c, Ev.retS x]) ∧
      s.cout = s0.cout ∧ s.cerr = s0.cerr ∧ s.shamir = s0.shamir) ?_ ?_
  · apply triple_callS
    · intro s x env h _
      rcases h with ⟨h1, h2, h3, h4, h5⟩
      exact ⟨h1, by simp [logEv, h2], h3, h4, h5⟩
    · intro s e h _
      rcases h with ⟨h1, h2, h3, h4, h5⟩
      refine Or.inl ⟨⟨pre s.loc, Ev.retS (get s.loc) :: rest s.loc, Ev.callS c, ?_, by simp, ?_⟩,
        h3, h4, h5⟩
      · exact (hs s.loc).symm
      · simp [logEv, h2]
  · intro x
    apply triple_assign
    intro s h
    rcases h with ⟨h1, h2, h3, h4, h5⟩
    exact ⟨hR _ _ h1, by simp [h2, hpre, hget _ _ h1], h3, h4, h5⟩

theorem at_callC_assign {s0 : State σ Sh Clr} {R : Locals Sh Clr → Prop}
    {bodyF pre rest : Locals Sh Clr → List (Ev Sh Clr)} {X : State σ Sh Clr → Prop}
    (cl : Collab σ Sh Clr) (c : ClearCall) (get : Locals Sh Clr → Clr)
    (set : Clr → Locals Sh Clr → Locals Sh Clr)
    (hs : ∀ L, bodyF L = pre L ++ (Ev.callC c :: Ev.retC (get L) :: rest L))
    (hget : ∀ L x, R L → get (set x L) = x)
    (hpre : ∀ L x, pre (set x L) = pre L)
    (hR : ∀ L x, R L → R (set x L)) :
    Triple (At s0 R pre) (callC cl c >>= fun x => assign (set x))
      (fun _ => At s0 R (fun L => pre L ++ [Ev.callC c, Ev.retC (get L)]))
      (fun _ t => Early s0 bodyF t ∨ X t) := by
  refine triple_bind
    (Q := fun x s => R s.loc ∧ s.trace = s0.trace ++ (pre s.loc ++ [Ev.callC c, Ev.retC x]) ∧
      s.cout = s0.cout ∧ s.cerr = s0.cerr ∧ s.shamir = s0.shamir) ?_ ?_
  · apply triple_callC
    · intro s x env h _
      rcases h with ⟨h1, h2, h3, h4, h5⟩
      exact ⟨h1, by simp [logEv, h2], h3, h4, h5⟩
    · intro s e h _
      rcases h with ⟨h1, h2, h3, h4, h5⟩
      refine Or.inl ⟨⟨pre s.loc, Ev.retC (get s.loc) :: rest s.loc, Ev.callC c, ?_, by simp, ?_⟩,
        h3, h4, h5⟩
      · exact (hs s.loc).symm
      · simp [logEv, h2]
  · intro x
    apply triple_assign
    intro s h
    rcases h with ⟨h1, h2, h3, h4, h5⟩
    exact ⟨hR _ _ h1, by simp [h2, hpre, hget _ _ h1], h3, h4, h5⟩

theorem at_congr {s0 : State σ Sh Clr} {R : Locals Sh Clr → Prop}
    {pre pre2 : Locals Sh Clr → List (Ev Sh Clr)} (h : ∀ L, pre L = pre2 L)
    (s : State σ Sh Clr) (hs : At s0 R pre s) : At s0 R pre2 s := by
  have e : pre = pre2 := funext h
  rw [← e]
  exact hs

theorem at_loop {s0 : State σ Sh Clr} {R : Locals Sh Clr → Prop}
    {pre : Locals Sh Clr → List (Ev Sh Clr)} {E : Err → State σ Sh Clr → Prop}
    (f : Locals Sh Clr → Nat → List (Ev Sh Clr)) (n : Nat)
    (bodyP : Nat → Step (State σ Sh Clr) Unit)
    (h : ∀ j, j < n → Triple (At s0 R (fun L => pre L ++ iterLog (f L) 0 j)) (bodyP j)
      (fun _ => At s0 R (fun L => (pre L ++ iterLog (f L) 0 j) ++ f L j)) E) :
    Triple (At s0 R pre) (forLoop bodyP 0 n)
      (fun _ => At s0 R (fun L => pre L ++ iterLog (f L) 0 n)) E := by
  have key := triple_forLoop (fun j => At s0 R (fun L => pre L ++ iterLog (f L) 0 j)) n 0
    (fun j _ hj => triple_conseq (h j (by omega)) (fun _ hs => hs)
      (fun _ s hs => at_congr (fun L => by rw [iterLog_succ, List.append_assoc]) s hs)
      (fun _ _ he => he))
  refine triple_conseq key (fun s hs => at_congr (fun L => by simp [iterLog]) s hs)
    (fun _ s hs => ?_) (fun _ _ he => he)
  simpa using hs

theorem getD_set_self [Inhabited Sh] (l : List Sh) (i : Nat) (x : Sh) (h : i < l.length) :
    (l.set i x).getD i default = x := by
  simp [List.getD_eq_getElem?_getD, List.getElem?_set, h]

theorem getD_set_other [Inhabited Sh] (l : List Sh) (i m : Nat) (x : Sh) (h : m ≠ i) :
    (l.set i x).getD m default = l.getD m default := by
  simp [List.getD_eq_getElem?_getD, List.getElem?_set, Ne.symm h]

theorem finLog_set_a [Inhabited Sh] (a b : List Sh) (j : Nat) (x : Sh) :
    iterLog (finIter a b : Nat → List (Ev Sh Clr)) 0 j
      = iterLog (finIter (a.set j x) b) 0 j := by
  apply iterLog_congr
  intro m _ hm
  have h := getD_set_other a j m x (by omega)
  simp only [finIter, h]

theorem finLog_set_b [Inhabited Sh] (a b : List Sh) (j : Nat) (x : Sh) :
    iterLog (finIter a b : Nat → List (Ev Sh Clr)) 0 j
      = iterLog (finIter a (b.set j x)) 0 j := by
  apply iterLog_congr
  intro m _ hm
  have h := getD_set_other b j m x (by omega)
  simp only [finIter, h]

theorem at_addLoop {s0 : State σ Sh Clr} {R : Locals Sh Clr → Prop}
    {bodyF pre rest : Locals Sh Clr → List (Ev Sh Clr)} {X : State σ Sh Clr → Prop}
    (cl : Collab σ Sh Clr) (n : Nat)
    (hs : ∀ L, bodyF L = pre L ++ (iterLog addIter 0 n ++ rest L)) :
    Triple (At s0 R pre)
      (forLoop (fun i => callV cl fun _ => VoidCall.input_add_from_all i) 0 n)
      (fun _ => At s0 R (fun L => pre L ++ iterLog addIter 0 n))
      (fun _ t => Early s0 bodyF t ∨ X t) := by
  apply at_loop (fun _ => addIter) n
  intro j hj
  have hsj : ∀ L, bodyF L = (pre L ++ iterLog addIter 0 j) ++
      (Ev.callV (VoidCall.input_add_from_all j) :: Ev.retV ::
        (iterLog addIter (j + 1) (n - (j + 1)) ++ rest L)) := by
    intro L
    rw [hs L, iterLog_step _ n j hj]
    simp [addIter]
  exact triple_conseq (at_callV cl _ hsj) (fun _ h => h)
    (fun _ s h => at_congr (fun L => by simp [addIter]) s h) (fun _ _ h => h)

theorem at_prepLoop [Inhabited Sh] {s0 : State σ Sh Clr} {R : Locals Sh Clr → Prop}
    {bodyF pre rest : Locals Sh Clr → List (Ev Sh Clr)} {X : State σ Sh Clr → Prop}
    (cl : Collab σ Sh Clr) (n : Nat)
    (hs : ∀ L, bodyF L = pre L ++ (iterLog (prepIter L.a L.b) 0 n ++ rest L)) :
    Triple (At s0 R pre)
      (forLoop (fun i => callV cl fun L =>
        VoidCall.prepare_dotprod (L.a.getD i default) (L.b.getD i default)) 0 n)
      (fun _ => At s0 R (fun L => pre L ++ iterLog (prepIter L.a L.b) 0 n))
      (fun _ t => Early s0 bodyF t ∨ X t) := by
  apply at_loop (fun L => prepIter L.a L.b) n
  intro j hj
  have hsj : ∀ L, bodyF L = (pre L ++ iterLog (prepIter L.a L.b) 0 j) ++
      (Ev.callV (VoidCall.prepare_dotprod (L.a.getD j default) (L.b.getD j default)) ::
        Ev.retV :: (iterLog (prepIter L.a L.b) (j + 1) (n - (j + 1)) ++ rest L)) := by
    intro L
    rw [hs L, iterLog_step _ n j hj]
    simp [prepIter]
  exact triple_conseq (at_callV cl _ hsj) (fun _ h => h)
    (fun _ s h => at_congr (fun L => by simp [prepIter]) s h) (fun _ _ h => h)

theorem at_finLoop [Inhabited Sh] {s0 : State σ Sh Clr}
    {bodyF pre rest : Locals Sh Clr → List (Ev Sh Clr)} {X : State σ Sh Clr → Prop}
    (cl : Collab σ Sh Clr) (n : Nat)
    (hconst : ∀ L L2, pre L = pre L2)
    (hs : ∀ L, bodyF L = pre L ++ (iterLog (finIter L.a L.b) 0 n ++ rest L)) :
    Triple (At s0 (Len n) pre)
      (forLoop (fun i =>
        callS cl (ShareCall.input_finalize 0) >>= fun x =>
        assign (fun L => { L with a := L.a.set i x }) >>= fun _ =>
        callS cl (ShareCall.input_finalize 1) >>= fun y =>
        assign (fun L => { L with b := L.b.set i y })) 0 n)
      (fun _ => At s0 (Len n) (fun L => pre L ++ iterLog (finIter L.a L.b) 0 n))
      (fun _ t => Early s0 bodyF t ∨ X t) := by
  apply at_loop (fun L => finIter L.a L.b) n
  intro j hj
  have hsj : ∀ L, bodyF L = (pre L ++ iterLog (finIter L.a L.b) 0 j) ++
      (Ev.callS (ShareCall.input_finalize 0) :: Ev.retS (L.a.getD j default) ::
        (Ev.callS (ShareCall.input_finalize 1) :: Ev.retS (L.b.getD j default) ::
          (iterLog (finIter L.a L.b) (j + 1) (n - (j + 1)) ++ rest L))) := by
    intro L
    rw [hs L, iterLog_step _ n j hj]
    simp [finIter]
  have e := bind_assoc_step (callS cl (ShareCall.input_finalize 0))
    (fun x => (assign (fun L : Locals Sh Clr => { L with a := L.a.set j x }) :
      Step (State σ Sh Clr) Unit))
    (fun _ => callS cl (ShareCall.input_finalize 1) >>= fun y =>
      assign (fun L => { L with b := L.b.set j y }))
  show Triple _ (callS cl (ShareCall.input_finalize 0) >>= fun x =>
        assign (fun L => { L with a := L.a.set j x }) >>= fun _ =>
        callS cl (ShareCall.input_finalize 1) >>= fun y =>
        assign (fun L => { L with b := L.b.set j y })) _ _
  rw [← e]
  have h1 : Triple (At s0 (Len n) _) _ _ (fun _ t => Early s0 bodyF t ∨ X t) :=
    at_callS_assign cl (ShareCall.input_finalize 0)
    (fun L => L.a.getD j default) (fun x L => { L with a := L.a.set j x }) hsj
    (fun L x hL => getD_set_self L.a j x (by rw [hL.1]; exact hj))
    (fun L x => by
      show pre _ ++ iterLog (finIter (L.a.set j x) L.b) 0 j = pre L ++ iterLog (finIter L.a L.b) 0 j
      rw [← finLog_set_a, hconst _ L])
    (fun L x hL => ⟨by simp [hL.1], hL.2⟩)
  have hsj2 := split_step hsj
  have h2 : Triple (At s0 (Len n) _) _ _ (fun _ t => Early s0 bodyF t ∨ X t) :=
    at_callS_assign cl (ShareCall.input_finalize 1)
    (fun L => L.b.getD j default) (fun x L => { L with b := L.b.set j x }) hsj2
    (fun L x hL => getD_set_self L.b j x (by rw [hL.2]; exact hj))
    (fun L x => by
      show pre _ ++ iterLog (finIter L.a (L.b.set j x)) 0 j ++ _
        = pre L ++ iterLog (finIter L.a L.b) 0 j ++ _
      rw [← finLog_set_b, hconst _ L])
    (fun L x hL => ⟨hL.1, by simp [hL.2]⟩)
  refine triple_conseq (triple_bind h1 (fun _ => h2)) (fun _ h => h)
    (fun _ s h => at_congr (fun L => by simp [finIter]) s h) (fun _ _ h => h)

theorem scriptBody_eq [Inhabited Sh] (n : Nat) (argv : List String) (prime_length : Int)
    (L : Locals Sh Clr) :
    scriptBody n argv prime_length L = [] ++
      (Ev.callV (VoidCall.Names (atoi (argvAt argv 1)) (atoi (argvAt argv 2)) "localhost" 9999)
        :: Ev.retV ::
      Ev.callV VoidCall.CryptoPlayer :: Ev.retV ::
      Ev.callV (VoidCall.ProtocolSetup prime_length) :: Ev.retV ::
      Ev.callV VoidCall.ProtocolSet :: Ev.retV ::
      Ev.callV VoidCall.input_reset_all :: Ev.retV ::
      (iterLog addIter 0 n ++
      (Ev.callV VoidCall.input_exchange :: Ev.retV ::
      (iterLog (finIter L.a L.b) 0 n ++
      (Ev.callV VoidCall.init_dotprod :: Ev.retV ::
      (iterLog (prepIter L.a L.b) 0 n ++
      (Ev.callV VoidCall.next_dotprod :: Ev.retV ::
      Ev.callV VoidCall.protocol_exchange :: Ev.retV ::
      Ev.callS (ShareCall.finalize_dotprod n) :: Ev.retS L.c ::
      Ev.callV VoidCall.protocol_check :: Ev.retV ::
      Ev.callV VoidCall.init_open :: Ev.retV ::
      Ev.callV (VoidCall.prepare_open L.c) :: Ev.retV ::
      Ev.callV VoidCall.output_exchange :: Ev.retV ::
      Ev.callC ClearCall.finalize_open :: Ev.retC L.result :: []))))))) := by
  simp [scriptBody, setupPhase, inputPhase, dotprodPhase, checkPhase, openPhase]

theorem split_loop {bodyF pre rest seg : Locals Sh Clr → List (Ev Sh Clr)}
    (hs : ∀ L, bodyF L = pre L ++ (seg L ++ rest L)) :
    ∀ L, bodyF L = (pre L ++ seg L) ++ rest L := by
  intro L
  rw [hs L, List.append_assoc]

theorem triple_bind2 {S α : Type} {P : S → Prop} {p : Step S α} {f : α → Step S Unit}
    {Q : Unit → S → Prop} {k : Step S Unit} {R : Unit → S → Prop} {E : Err → S → Prop}
    (hp : Triple P (p >>= fun x => f x) Q E) (hk : Triple (Q ()) k R E) :
    Triple P (p >>= fun x => f x >>= fun _ => k) R E := by
  rw [← bind_assoc_step]
  exact triple_bind hp (fun _ => hk)

theorem runWith_triple [Inhabited Sh] [Inhabited Clr] (cl : Collab σ Sh Clr) (n : Nat)
    (argv : List String) (prime_length : Int) (s0 : State σ Sh Clr) :
    Triple (fun s => s = s0) (runWith cl n argv prime_length)
      (fun _ t => Done s0 n argv prime_length t)
      (fun _ t => Early s0 (scriptBody n argv prime_length) t ∨
        Late s0 n argv prime_length t) := by
  have hs : ∀ L : Locals Sh Clr, scriptBody n argv prime_length L = _ :=
    scriptBody_eq n argv prime_length
  have h0 : ∀ s, s = s0 → At s0 (fun _ => True) (fun _ => []) s := by
    intro s h
    subst h
    exact ⟨trivial, by simp, rfl, rfl, rfl⟩
  refine triple_conseq ?_ h0 (fun _ _ h => h) (fun _ _ h => h)
  dsimp only [runWith]
  -- setup
  refine triple_bind (at_callV cl _ hs) (fun _ => ?_)
  replace hs := split_step hs
  refine triple_bind (at_callV cl _ hs) (fun _ => ?_)
  replace hs := split_step hs
  refine triple_bind (at_callV cl _ hs) (fun _ => ?_)
  replace hs := split_step hs
  refine triple_bind (at_callV cl _ hs) (fun _ => ?_)
  replace hs := split_step hs
  -- the local variables
  refine triple_bind (Q := fun _ => At s0 (Len n) _) (at_assign _ (fun _ => rfl)
    (fun _ _ => ⟨by simp, by simp⟩)) (fun _ => ?_)
  -- input
  refine triple_bind (at_callV cl _ hs) (fun _ => ?_)
  replace hs := split_step hs
  refine triple_bind (at_addLoop cl n hs) (fun _ => ?_)
  replace hs := split_loop hs
  refine triple_bind (at_callV cl _ hs) (fun _ => ?_)
  replace hs := split_step hs
  refine triple_bind (at_finLoop cl n (fun _ _ => rfl) hs) (fun _ => ?_)
  replace hs := split_loop hs
  -- dot product
  refine triple_bind (at_callV cl _ hs) (fun _ => ?_)
  replace hs := split_step hs
  refine triple_bind (at_prepLoop cl n hs) (fun _ => ?_)
  replace hs := split_loop hs
  refine triple_bind (at_callV cl _ hs) (fun _ => ?_)
  replace hs := split_step hs
  refine triple_bind (at_callV cl _ hs) (fun _ => ?_)
  replace hs := split_step hs
  refine triple_bind2 (at_callS_assign cl _ (fun L => L.c) (fun x L => { L with c := x }) hs
    (fun _ _ _ => rfl) (fun _ _ => rfl) (fun _ _ h => h)) ?_
  replace hs := split_step hs
  -- protocol check before revealing results
  refine triple_bind (at_callV cl _ hs) (fun _ => ?_)
  replace hs := split_step hs
  -- open
  refine triple_bind (at_callV cl _ hs) (fun _ => ?_)
  replace hs := split_step hs
  refine triple_bind (at_callV cl _ hs) (fun _ => ?_)
  replace hs := split_step hs
  refine triple_bind (at_callV cl _ hs) (fun _ => ?_)
  replace hs := split_step hs
  refine triple_bind2 (at_callC_assign cl _ (fun L => L.result)
    (fun x L => { L with result := x }) hs
    (fun _ _ _ => rfl) (fun _ _ => rfl) (fun _ _ h => h)) ?_
  replace hs := split_step hs
  -- print, and the result check after opening
  refine triple_bind (Q := fun _ t => t.trace = s0.trace ++ scriptBody n argv prime_length t.loc ∧
    t.cout = s0.cout ++ resultLine t.loc.result ∧ t.cerr = s0.cerr ∧
    t.shamir = s0.shamir ∧ Len n t.loc) ?_ (fun _ => ?_)
  · apply triple_print
    intro s h
    rcases h with ⟨h1, h2, h3, h4, h5⟩
    refine ⟨?_, by simp [h3], h4, h5, h1⟩
    have e := hs s.loc
    simp only [List.append_nil] at e
    simp only [e, h2]
  · apply triple_callV
    · intro s env h _
      rcases h with ⟨h1, h2, h3, h4, h5⟩
      exact ⟨by simp [logEv, h1, script, finalCheck], h2, h3, h4, h5⟩
    · intro s e h _
      rcases h with ⟨h1, h2, h3, h4, h5⟩
      exact Or.inr ⟨by simp [logEv, h1], h2, h3, h4, h5⟩

/-! ## `run` on the ideal collaborators -/

theorem emod_step (S x y m : Int) : (S % m + (x % m) * (y % m)) % m = (S + x * y) % m := by
  have h : Int.ModEq m (S % m + (x % m) * (y % m)) (S + x * y) :=
    (Int.mod_modEq S m).add ((Int.mod_modEq x m).mul (Int.mod_modEq y m))
  exact h

theorem dotUpTo_succ (a b : List Int) (j : Nat) :
    dotUpTo a b (j + 1) = dotUpTo a b j + a.getD j 0 * b.getD j 0 := by
  simp [dotUpTo, List.range_succ]

theorem contributed_eq (e e0 : Ideal) (h1 : e.modulus = e0.modulus)
    (h2 : e.values = e0.values) (owner idx : Int) :
    e.contributed owner idx = e0.contributed owner idx := by
  simp [Ideal.contributed, h1, h2]

theorem declared_getD (n j : Nat) (h : j < n) :
    ((List.range n).map fun (i : Nat) => (i : Int)).getD j 0 = (j : Int) := by
  rw [List.getD_eq_getElem?_getD, List.getElem?_map, List.getElem?_range h]
  rfl

theorem ideal_void_ok {P : State Ideal Int Int → Prop} {Q : Unit → State Ideal Int Int → Prop}
    {E : Err → State Ideal Int Int → Prop} (c : Locals Int Int → VoidCall Int)
    (g : State Ideal Int Int → Ideal)
    (hv : ∀ s, P s → Ideal.void (c s.loc) s.env = Except.ok (g s))
    (hQ : ∀ s, P s → Q () (logEv Ev.retV { logEv (Ev.callV (c s.loc)) s with env := g s })) :
    Triple P (callV idealCollab c) Q E := by
  apply triple_callV
  · intro s env h henv
    have e := hv s h
    simp only [idealCollab] at henv
    rw [e] at henv
    simp at henv
    rw [← henv]
    exact hQ s h
  · intro s e h henv
    have e := hv s h
    simp only [idealCollab] at henv
    rw [e] at henv
    simp at henv

theorem ideal_share_ok {P : State Ideal Int Int → Prop} {Q : Int → State Ideal Int Int → Prop}
    {E : Err → State Ideal Int Int → Prop} (c : ShareCall)
    (g : State Ideal Int Int → Int × Ideal)
    (hv : ∀ s, P s → Ideal.share c s.env = Except.ok (g s))
    (hQ : ∀ s, P s → Q (g s).1
      (logEv (Ev.retS (g s).1) { logEv (Ev.callS c) s with env := (g s).2 })) :
    Triple P (callS idealCollab c) Q E := by
  apply triple_callS
  · intro s x env h henv
    have e := hv s h
    simp only [idealCollab] at henv
    rw [e] at henv
    simp at henv
    have h2 := hQ s h
    rw [henv] at h2
    exact h2
  · intro s e h henv
    have e := hv s h
    simp only [idealCollab] at henv
    rw [e] at henv
    simp at henv

theorem ideal_clear_ok {P : State Ideal Int Int → Prop} {Q : Int → State Ideal Int Int → Prop}
    {E : Err → State Ideal Int Int → Prop} (c : ClearCall)
    (g : State Ideal Int Int → Int × Ideal)
    (hv : ∀ s, P s → Ideal.clear c s.env = Except.ok (g s))
    (hQ : ∀ s, P s → Q (g s).1
      (logEv (Ev.retC (g s).1) { logEv (Ev.callC c) s with env := (g s).2 })) :
    Triple P (callC idealCollab c) Q E := by
  apply triple_callC
  · intro s x env h henv
    have e := hv s h
    simp only [idealCollab] at henv
    rw [e] at henv
    simp at henv
    have h2 := hQ s h
    rw [henv] at h2
    exact h2
  · intro s e h henv
    have e := hv s h
    simp only [idealCollab] at henv
    rw [e] at henv
    simp at henv

theorem contributed_zero (e0 : Ideal) (j : Nat) :
    e0.contributed 0 (j : Int) = (e0.values.getD 0 []).getD j 0 % e0.modulus := by
  simp [Ideal.contributed]

theorem contributed_one (e0 : Ideal) (j : Nat) :
    e0.contributed 1 (j : Int) = (e0.values.getD 1 []).getD j 0 % e0.modulus := by
  simp [Ideal.contributed]

theorem ideal_run (n : Nat) (argv : List String) (prime_length : Int)
    (s0 : State Ideal Int Int) (hnp : 2 ≤ atoi (argvAt argv 2)) :
    Triple (fun s => s = s0) (runWith idealCollab n argv prime_length)
      (fun _ t => s0.env.mulTampered = false ∧ s0.env.outTampered = false ∧
        t.cout = s0.cout ++ resultLine (idealResult s0.env n))
      (fun e t => e = Err.IntegrityCheckFailure ∧
        ((s0.env.mulTampered = true ∧ t.cout = s0.cout) ∨
         (s0.env.mulTampered = false ∧ s0.env.outTampered = true ∧
          t.cout = s0.cout ++ resultLine (idealResult s0.env n)))) := by
  dsimp only [runWith]
  -- setup
  refine triple_bind (Q := fun _ s => ICore s0.env (atoi (argvAt argv 2)) s0.cout s) ?_
    (fun _ => ?_)
  · refine ideal_void_ok _ (fun s => { s.env with nparties := atoi (argvAt argv 2) })
      (fun s _ => rfl) (fun s h => ?_)
    subst h
    simp [ICore, logEv]
  refine triple_bind (Q := fun _ s => ICore s0.env (atoi (argvAt argv 2)) s0.cout s) ?_
    (fun _ => ?_)
  · exact ideal_void_ok _ (fun s => s.env) (fun s _ => rfl) (fun s h => h)
  refine triple_bind (Q := fun _ s => ICore s0.env (atoi (argvAt argv 2)) s0.cout s) ?_
    (fun _ => ?_)
  · exact ideal_void_ok _ (fun s => s.env) (fun s _ => rfl) (fun s h => h)
  refine triple_bind (Q := fun _ s => ICore s0.env (atoi (argvAt argv 2)) s0.cout s) ?_
    (fun _ => ?_)
  · exact ideal_void_ok _ (fun s => s.env) (fun s _ => rfl) (fun s h => h)
  refine triple_bind (Q := fun _ s => ICore s0.env (atoi (argvAt argv 2)) s0.cout s ∧
    Len n s.loc) ?_ (fun _ => ?_)
  · apply triple_assign
    intro s h
    exact ⟨h, by simp [Len]⟩
  -- input
  refine triple_bind (Q := fun _ s => (ICore s0.env (atoi (argvAt argv 2)) s0.cout s ∧
    Len n s.loc) ∧ s.env.inPhase = InPhase.Collecting ∧
    s.env.declared = ((List.range 0).map fun (i : Nat) => (i : Int)) ∧
    s.env.cursor 0 = 0 ∧ s.env.cursor 1 = 0) ?_ (fun _ => ?_)
  · refine ideal_void_ok _
      (fun s => { s.env with inPhase := InPhase.Collecting, declared := [], cursor := fun _ => 0 })
      (fun s _ => rfl) (fun s h => ?_)
    exact ⟨h, rfl, rfl, rfl, rfl⟩
  refine triple_bind (triple_forLoop (fun j s =>
    (ICore s0.env (atoi (argvAt argv 2)) s0.cout s ∧ Len n s.loc) ∧
    s.env.inPhase = InPhase.Collecting ∧
    s.env.declared = ((List.range j).map fun (i : Nat) => (i : Int)) ∧
    s.env.cursor 0 = 0 ∧ s.env.cursor 1 = 0) n 0 (fun j _ _ => ?_)) (fun _ => ?_)
  · refine ideal_void_ok _ (fun s => { s.env with declared := s.env.declared ++ [(j : Int)] })
      (fun s h => ?_) (fun s h => ?_)
    · simp [Ideal.void, h.2.1]
    · rcases h with ⟨h1, h2, h3, h4, h5⟩
      refine ⟨h1, h2, ?_, h4, h5⟩
      simp [logEv, h3, List.range_succ]
  refine triple_bind (Q := fun _ s => (ICore s0.env (atoi (argvAt argv 2)) s0.cout s ∧
    Len n s.loc) ∧ s.env.inPhase = InPhase.Exchanged ∧
    s.env.declared = ((List.range n).map fun (i : Nat) => (i : Int)) ∧
    s.env.cursor 0 = 0 ∧ s.env.cursor 1 = 0 ∧ Filled s0.env 0 s.loc) ?_ (fun _ => ?_)
  · refine ideal_void_ok _ (fun s => { s.env with inPhase := InPhase.Exchanged })
      (fun s h => ?_) (fun s h => ?_)
    · simp [Ideal.void, h.2.1]
    · rcases h with ⟨h1, h2, h3, h4, h5⟩
      refine ⟨h1, rfl, ?_, h4, h5, fun i hi => absurd hi (Nat.not_lt_zero i)⟩
      simpa [logEv] using h3
  refine triple_bind (triple_forLoop (fun j s =>
    (ICore s0.env (atoi (argvAt argv 2)) s0.cout s ∧ Len n s.loc) ∧
    s.env.inPhase = InPhase.Exchanged ∧
    s.env.declared = ((List.range n).map fun (i : Nat) => (i : Int)) ∧
    s.env.cursor 0 = j ∧ s.env.cursor 1 = j ∧ Filled s0.env j s.loc) n 0
    (fun j _ hj => ?_)) (fun _ => ?_)
  · have hjn : j < n := by omega
    -- a[j] = input.finalize(0)
    refine triple_bind (Q := fun x s =>
      ((ICore s0.env (atoi (argvAt argv 2)) s0.cout s ∧ Len n s.loc) ∧
      s.env.inPhase = InPhase.Exchanged ∧
      s.env.declared = ((List.range n).map fun (i : Nat) => (i : Int)) ∧
      s.env.cursor 0 = j + 1 ∧ s.env.cursor 1 = j ∧ Filled s0.env j s.loc) ∧
      x = s0.env.contributed 0 j) ?_ (fun x => ?_)
    · refine ideal_share_ok _ (fun s =>
        (s.env.contributed 0 (s.env.declared.getD (s.env.cursor 0) 0),
          { s.env with cursor := fun p => if p = 0 then s.env.cursor 0 + 1 else s.env.cursor p }))
        (fun s h => ?_) (fun s h => ?_)
      · rcases h with ⟨⟨hc, hl⟩, h2, h3, h4, h5, h6⟩
        have hp : (0 : Int) < s.env.nparties := by rw [hc.2.2.2.2.1]; omega
        simp [Ideal.share, h2, h3, h4, hjn, hp]
      · rcases h with ⟨⟨hc, hl⟩, h2, h3, h4, h5, h6⟩
        refine ⟨⟨⟨hc, hl⟩, h2, h3, ?_, ?_, h6⟩, ?_⟩
        · simp [logEv, h4]
        · simp [logEv, h5]
        · simp only [h3, h4, declared_getD n j hjn]
          exact contributed_eq _ _ hc.1 hc.2.1 _ _
    refine triple_bind (Q := fun _ s =>
      ((ICore s0.env (atoi (argvAt argv 2)) s0.cout s ∧ Len n s.loc) ∧
      s.env.inPhase = InPhase.Exchanged ∧
      s.env.declared = ((List.range n).map fun (i : Nat) => (i : Int)) ∧
      s.env.cursor 0 = j + 1 ∧ s.env.cursor 1 = j ∧ Filled s0.env j s.loc) ∧
      s.loc.a.getD j default = s0.env.contributed 0 j) ?_ (fun _ => ?_)
    · apply triple_assign
      intro s h
      rcases h with ⟨⟨⟨hc, hl⟩, h2, h3, h4, h5, h6⟩, hx⟩
      refine ⟨⟨⟨hc, ?_⟩, h2, h3, h4, h5, ?_⟩, ?_⟩
      · exact ⟨by simp [hl.1], hl.2⟩
      · intro i hi
        have := h6 i hi
        refine ⟨?_, this.2⟩
        show (s.loc.a.set j x).getD i default = _
        rw [getD_set_other _ _ _ _ (by omega)]
        exact this.1
      · show (s.loc.a.set j x).getD j default = _
        rw [getD_set_self _ _ _ (by rw [hl.1]; exact hjn)]
        exact hx
    -- b[j] = input.finalize(1)
    refine triple_bind (Q := fun y s =>
      (((ICore s0.env (atoi (argvAt argv 2)) s0.cout s ∧ Len n s.loc) ∧
      s.env.inPhase = InPhase.Exchanged ∧
      s.env.declared = ((List.range n).map fun (i : Nat) => (i : Int)) ∧
      s.env.cursor 0 = j + 1 ∧ s.env.cursor 1 = j + 1 ∧ Filled s0.env j s.loc) ∧
      s.loc.a.getD j default = s0.env.contributed 0 j) ∧
      y = s0.env.contributed 1 j) ?_ (fun y => ?_)
    · refine ideal_share_ok _ (fun s =>
        (s.env.contributed 1 (s.env.declared.getD (s.env.cursor 1) 0),
          { s.env with cursor := fun p => if p = 1 then s.env.cursor 1 + 1 else s.env.cursor p }))
        (fun s h => ?_) (fun s h => ?_)
      · rcases h with ⟨⟨⟨hc, hl⟩, h2, h3, h4, h5, h6⟩, hx⟩
        have hp : (1 : Int) < s.env.nparties := by rw [hc.2.2.2.2.1]; omega
        simp [Ideal.share, h2, h3, h5, hjn, hp]
      · rcases h with ⟨⟨⟨hc, hl⟩, h2, h3, h4, h5, h6⟩, hx⟩
        refine ⟨⟨⟨⟨hc, hl⟩, h2, h3, ?_, ?_, h6⟩, hx⟩, ?_⟩
        · simp [logEv, h4]
        · simp [logEv, h5]
        · simp only [h3, h5, declared_getD n j hjn]
          exact contributed_eq _ _ hc.1 hc.2.1 _ _
    · apply triple_assign
      intro s h
      rcases h with ⟨⟨⟨⟨hc, hl⟩, h2, h3, h4, h5, h6⟩, hx⟩, hy⟩
      refine ⟨⟨hc, ?_⟩, h2, h3, h4, h5, ?_⟩
      · exact ⟨hl.1, by simp [hl.2]⟩
      · intro i hi
        show s.loc.a.getD i default = _ ∧ (s.loc.b.set j y).getD i default = _
        by_cases hij : i = j
        · subst hij
          rw [getD_set_self _ _ _ (by rw [hl.2]; exact hjn)]
          exact ⟨hx, hy⟩
        · rw [getD_set_other _ _ _ _ hij]
          exact h6 i (by omega)
  -- dot product
  refine triple_bind (Q := fun _ s => ((ICore s0.env (atoi (argvAt argv 2)) s0.cout s ∧
    Len n s.loc) ∧ Filled s0.env n s.loc) ∧
    s.env.acc = dotUpTo (s0.env.values.getD 0 []) (s0.env.values.getD 1 []) 0 % s0.env.modulus ∧
    s.env.count = 0) ?_ (fun _ => ?_)
  · refine ideal_void_ok _ (fun s => { s.env with acc := 0, count := 0 })
      (fun s _ => rfl) (fun s h => ?_)
    rcases h with ⟨h1, h2, h3, h4, h5, h6⟩
    simp only [Nat.zero_add] at h6
    exact ⟨⟨h1, h6⟩, by simp [logEv, dotUpTo], rfl⟩
  refine triple_bind (triple_forLoop (fun j s =>
    ((ICore s0.env (atoi (argvAt argv 2)) s0.cout s ∧ Len n s.loc) ∧ Filled s0.env n s.loc) ∧
    s.env.acc = dotUpTo (s0.env.values.getD 0 []) (s0.env.values.getD 1 []) j % s0.env.modulus ∧
    s.env.count = j) n 0 (fun j _ hj => ?_)) (fun _ => ?_)
  · have hjn : j < n := by omega
    refine ideal_void_ok _ (fun s => { s.env with
      acc := (s.env.acc + s.loc.a.getD j default * s.loc.b.getD j default) % s.env.modulus,
      count := s.env.count + 1 }) (fun s _ => rfl) (fun s h => ?_)
    rcases h with ⟨⟨⟨hc, hl⟩, hf⟩, ha, hk⟩
    refine ⟨⟨⟨hc, hl⟩, hf⟩, ?_, ?_⟩
    · show (s.env.acc + s.loc.a.getD j default * s.loc.b.getD j default) % s.env.modulus = _
      rw [(hf j hjn).1, (hf j hjn).2, ha, hc.1, contributed_zero, contributed_one, emod_step,
        dotUpTo_succ]
    · show s.env.count + 1 = j + 1
      rw [hk]
  refine triple_bind (Q := fun _ s => ICore s0.env (atoi (argvAt argv 2)) s0.cout s ∧
    s.env.staged = some (idealResult s0.env n, n)) ?_ (fun _ => ?_)
  · refine ideal_void_ok _
      (fun s => { s.env with staged := some (s.env.acc, s.env.count), acc := 0, count := 0 })
      (fun s _ => rfl) (fun s h => ?_)
    rcases h with ⟨⟨⟨hc, _⟩, _⟩, ha, hk⟩
    simp only [Nat.zero_add] at ha hk
    exact ⟨hc, by simp [logEv, ha, hk, idealResult]⟩
  refine triple_bind (Q := fun _ s => ICore s0.env (atoi (argvAt argv 2)) s0.cout s ∧
    s.env.product = some (idealResult s0.env n, n)) ?_ (fun _ => ?_)
  · refine ideal_void_ok _
      (fun s => { s.env with product := some (idealResult s0.env n, n), staged := none })
      (fun s h => ?_) (fun s h => ?_)
    · simp [Ideal.void, h.2]
    · exact ⟨h.1, rfl⟩
  refine triple_bind (Q := fun x s => ICore s0.env (atoi (argvAt argv 2)) s0.cout s ∧
    x = idealResult s0.env n) ?_ (fun x => ?_)
  · refine ideal_share_ok _ (fun s => (idealResult s0.env n, { s.env with product := none }))
      (fun s h => ?_) (fun s h => ?_)
    · simp [Ideal.share, h.2]
    · exact ⟨h.1, rfl⟩
  refine triple_bind (Q := fun _ s => ICore s0.env (atoi (argvAt argv 2)) s0.cout s ∧
    s.loc.c = idealResult s0.env n) ?_ (fun _ => ?_)
  · apply triple_assign
    intro s h
    exact ⟨h.1, h.2⟩
  -- protocol check before revealing results
  refine triple_bind (Q := fun _ s => (ICore s0.env (atoi (argvAt argv 2)) s0.cout s ∧
    s.loc.c = idealResult s0.env n) ∧ s0.env.mulTampered = false) ?_ (fun _ => ?_)
  · apply triple_callV
    · intro s env h hv
      rcases h with ⟨hc, hx⟩
      simp only [idealCollab, Ideal.void] at hv
      split at hv
      · simp at hv
      · rename_i hm
        simp at hv
        subst hv
        refine ⟨⟨hc, hx⟩, ?_⟩
        rw [← hc.2.2.1]
        simpa using hm
    · intro s e h hv
      rcases h with ⟨hc, hx⟩
      simp only [idealCollab, Ideal.void] at hv
      split at hv
      · rename_i hm
        simp at hv
        refine ⟨hv.symm, Or.inl ⟨?_, ?_⟩⟩
        · rw [← hc.2.2.1]
          exact hm
        · simpa [logEv] using hc.2.2.2.2.2
      · simp at hv
  -- open
  refine triple_bind (Q := fun _ s => ((ICore s0.env (atoi (argvAt argv 2)) s0.cout s ∧
    s.loc.c = idealResult s0.env n) ∧ s0.env.mulTampered = false) ∧ s.env.opening = [])
    ?_ (fun _ => ?_)
  · refine ideal_void_ok _ (fun s => { s.env with opening := [], opened := none })
      (fun s _ => rfl) (fun s h => ?_)
    exact ⟨h, rfl⟩
  refine triple_bind (Q := fun _ s => (ICore s0.env (atoi (argvAt argv 2)) s0.cout s ∧
    s0.env.mulTampered = false) ∧ s.env.opening = [idealResult s0.env n])
    ?_ (fun _ => ?_)
  · refine ideal_void_ok _ (fun s => { s.env with opening := s.env.opening ++ [s.loc.c] })
      (fun s _ => rfl) (fun s h => ?_)
    rcases h with ⟨⟨⟨hc, hx⟩, hm⟩, ho⟩
    refine ⟨⟨hc, hm⟩, ?_⟩
    simp [logEv, ho, hx]
  refine triple_bind (Q := fun _ s => (ICore s0.env (atoi (argvAt argv 2)) s0.cout s ∧
    s0.env.mulTampered = false) ∧ s.env.opened = some [idealResult s0.env n])
    ?_ (fun _ => ?_)
  · refine ideal_void_ok _ (fun s => { s.env with opened := some s.env.opening, opening := [] })
      (fun s _ => rfl) (fun s h => ?_)
    rcases h with ⟨hc, ho⟩
    refine ⟨hc, ?_⟩
    simp [logEv, ho]
  refine triple_bind (Q := fun x s => (ICore s0.env (atoi (argvAt argv 2)) s0.cout s ∧
    s0.env.mulTampered = false) ∧ x = idealResult s0.env n) ?_ (fun x => ?_)
  · refine ideal_clear_ok _ (fun s => (idealResult s0.env n, { s.env with opened := some [] }))
      (fun s h => ?_) (fun s h => ?_)
    · simp [Ideal.clear, h.2]
    · exact ⟨h.1, rfl⟩
  refine triple_bind (Q := fun _ s => (ICore s0.env (atoi (argvAt argv 2)) s0.cout s ∧
    s0.env.mulTampered = false) ∧ s.loc.result = idealResult s0.env n) ?_ (fun _ => ?_)
  · apply triple_assign
    intro s h
    exact ⟨h.1, h.2⟩
  -- print, and the result check after opening
  refine triple_bind (Q := fun _ s => s.env.outTampered = s0.env.outTampered ∧
    s0.env.mulTampered = false ∧
    s.cout = s0.cout ++ resultLine (idealResult s0.env n)) ?_ (fun _ => ?_)
  · apply triple_print
    intro s h
    rcases h with ⟨⟨hc, hm⟩, hr⟩
    exact ⟨hc.2.2.2.1, hm, by simp [hc.2.2.2.2.2, hr]⟩
  apply triple_callV
  · intro s env h hv
    rcases h with ⟨ho, hm, hcout⟩
    simp only [idealCollab, Ideal.void] at hv
    split at hv
    · simp at hv
    · rename_i ht
      refine ⟨hm, ?_, by simpa [logEv] using hcout⟩
      rw [← ho]
      simpa using ht
  · intro s e h hv
    rcases h with ⟨ho, hm, hcout⟩
    simp only [idealCollab, Ideal.void] at hv
    split at hv
    · rename_i ht
      simp at hv
      refine ⟨hv.symm, Or.inr ⟨hm, ?_, by simpa [logEv] using hcout⟩⟩
      rw [← ho]
      exact ht
    · simp at hv

/-! ## Outcomes of `run` -/

theorem triple_outcome {S α : Type} {P : S → Prop} {p : Step S α} {Q : α → S → Prop}
    {E : Err → S → Prop} (h : Triple P p Q E) (s : S) (hs : P s) :
    (∃ x, (p s).1 = Except.ok x ∧ Q x (p s).2) ∨ (∃ e, (p s).1 = Except.error e ∧ E e (p s).2) := by
  rcases step_cases p s with ⟨x, t, hx⟩ | ⟨e, t, he⟩
  · exact Or.inl ⟨x, by rw [hx], by rw [hx]; exact (h s hs).1 x t hx⟩
  · exact Or.inr ⟨e, by rw [he], by rw [he]; exact (h s hs).2 e t he⟩

theorem runWith_outcome [Inhabited Sh] [Inhabited Clr] (cl : Collab σ Sh Clr) (n : Nat)
    (argv : List String) (prime_length : Int) (s0 : State σ Sh Clr) :
    (∃ x, (runWith cl n argv prime_length s0).1 = Except.ok x ∧
        Done s0 n argv prime_length (runWith cl n argv prime_length s0).2) ∨
    (∃ e, (runWith cl n argv prime_length s0).1 = Except.error e ∧
        (Early s0 (scriptBody n argv prime_length) (runWith cl n argv prime_length s0).2 ∨
         Late s0 n argv prime_length (runWith cl n argv prime_length s0).2)) :=
  triple_outcome (runWith_triple cl n argv prime_length s0) s0 rfl

theorem newLog_append (s0 t : State σ Sh Clr) (l : List (Ev Sh Clr))
    (h : t.trace = s0.trace ++ l) : newLog s0 t = l := by
  simp [newLog, h]

/-- What `run` leaves untouched, and the first entry it logs. -/
theorem runWith_frame [Inhabited Sh] [Inhabited Clr] (cl : Collab σ Sh Clr) (n : Nat)
    (argv : List String) (prime_length : Int) (s0 : State σ Sh Clr) :
    (runWith cl n argv prime_length s0).2.cerr = s0.cerr ∧
    (runWith cl n argv prime_length s0).2.shamir = s0.shamir ∧
    ∃ rest, (runWith cl n argv prime_length s0).2.trace = s0.trace ++
      Ev.callV (VoidCall.Names (atoi (argvAt argv 1)) (atoi (argvAt argv 2)) "localhost" 9999)
        :: rest := by
  rcases runWith_outcome cl n argv prime_length s0 with ⟨x, _, hd⟩ | ⟨e, _, he | hl⟩
  · rcases hd with ⟨h1, _, h3, h4, _⟩
    refine ⟨h3, h4, ?_⟩
    rw [h1]
    simp [script, scriptBody, setupPhase]
  · rcases he with ⟨⟨l, u, c, h1, _, h3⟩, _, h5, h6⟩
    refine ⟨h5, h6, ?_⟩
    rw [h3]
    rw [scriptBody_eq] at h1
    cases l with
    | nil =>
      simp at h1
      exact ⟨[], by simp [h1.1]⟩
    | cons y l2 =>
      simp at h1
      exact ⟨l2 ++ [c], by simp [h1.1]⟩
  · rcases hl with ⟨h1, _, h3, h4, _⟩
    refine ⟨h3, h4, ?_⟩
    rw [h1]
    simp [scriptBody, setupPhase]

/-! ## Argument handling in `main` -/

theorem callRun_frame [Inhabited Sh] [Inhabited Clr] (B : ShareT → Collab σ Sh Clr)
    (T : ShareT) (argv : List String) (prime_length : Int) (s : State σ Sh Clr) :
    ((callRun B T argv prime_length s).1 = Status.returned 0 ∨
      ∃ e, (callRun B T argv prime_length s).1 = Status.threw e) ∧
    (callRun B T argv prime_length s).2.cerr = s.cerr ∧
    (callRun B T argv prime_length s).2.shamir = s.shamir ∧
    ∃ rest, (callRun B T argv prime_length s).2.trace = s.trace ++
      Ev.enter_run T prime_length ::
      Ev.callV (VoidCall.Names (atoi (argvAt argv 1)) (atoi (argvAt argv 2)) "localhost" 9999)
        :: rest := by
  have hf := runWith_frame (B T) 1000 argv prime_length (logEv (Ev.enter_run T prime_length) s)
  rcases hf with ⟨h1, h2, rest, h3⟩
  unfold callRun run
  rcases step_cases (runWith (B T) 1000 argv prime_length)
    (logEv (Ev.enter_run T prime_length) s) with ⟨x, t, hx⟩ | ⟨e, t, he⟩
  · rw [hx] at h1 h2 h3
    rw [hx]
    exact ⟨Or.inl rfl, h1, h2, rest, by simpa [logEv] using h3⟩
  · rw [he] at h1 h2 h3
    rw [he]
    exact ⟨Or.inr ⟨e, rfl⟩, h1, h2, rest, by simpa [logEv] using h3⟩

theorem callRun_ne_exit [Inhabited Sh] [Inhabited Clr] (B : ShareT → Collab σ Sh Clr)
    (T : ShareT) (argv : List String) (prime_length : Int) (s : State σ Sh Clr) (k : Int) :
    (callRun B T argv prime_length s).1 ≠ Status.exit k := by
  rcases (callRun_frame B T argv prime_length s).1 with h | ⟨e, h⟩ <;> rw [h] <;> simp

theorem callRun_ne_assert [Inhabited Sh] [Inhabited Clr] (B : ShareT → Collab σ Sh Clr)
    (T : ShareT) (argv : List String) (prime_length : Int) (s : State σ Sh Clr) :
    (callRun B T argv prime_length s).1 ≠ Status.assert_failed := by
  rcases (callRun_frame B T argv prime_length s).1 with h | ⟨e, h⟩ <;> rw [h] <;> simp

theorem wrapInt_range (x : Int) : -2147483648 ≤ wrapInt x ∧ wrapInt x < 2147483648 := by
  unfold wrapInt
  omega

theorem wrapInt_eq_self (x : Int) (h1 : -2147483648 ≤ x) (h2 : x < 2147483648) :
    wrapInt x = x := by
  unfold wrapInt
  omega

theorem atoi_range (str : String) : -2147483648 ≤ atoi str ∧ atoi str < 2147483648 :=
  wrapInt_range (strtol str)

theorem main_assert_failed [Inhabited Sh] [Inhabited Clr]
    (B : ShareT → Collab σ Sh Clr) (argv : List String) (s : State σ Sh Clr)
    (hp : protocolName argv = "Shamir" ∨ protocolName argv = "MalShamir")
    (hv : ¬ (wrapInt (2 * shamirThreshold argv) < atoi (argvAt argv 2))) :
    main B argv s = (Status.assert_failed, s) := by
  have hargc : ¬ ((argv.length : Int) < 3) := by
    intro h
    have : protocolName argv = "MASCOT" := by
      unfold protocolName
      rw [if_neg (by omega)]
    rcases hp with hp | hp <;> rw [this] at hp <;> simp at hp
  unfold main
  rcases hp with hp | hp <;> simp [hargc, hp, hv]

theorem not_known_iff (p : String) :
    p ∉ knownProtocols ↔ (p ≠ "MASCOT" ∧ p ≠ "CowGear" ∧ p ≠ "SPDZ2k" ∧ p ≠ "Semi2k" ∧
      p ≠ "Shamir" ∧ p ≠ "MalShamir") := by
  simp [knownProtocols]

/-- C3 (amended). `main` ends with `exit(1)` if and only if fewer than two positional
arguments are given (`argc < 3`) or the protocol name (`argv[3]`, `MASCOT` when absent)
is not one of the six known names.  In the first case the usage message is written to
standard error; in the second case the message `Unknown protocol: <name>` is written
to standard error instead.  In both cases nothing is written to standard output and
`run` is not entered: the rest of the state is the one `main` started in. -/
theorem main_exit_one [Inhabited Sh] [Inhabited Clr] (B : ShareT → Collab σ Sh Clr)
    (argv : List String) (s : State σ Sh Clr) :
    ((main B argv s).1 = Status.exit 1 ↔
      ((argv.length : Int) < 3 ∨ protocolName argv ∉ knownProtocols)) ∧
    ((argv.length : Int) < 3 →
      main B argv s = (Status.exit 1, { s with cerr := s.cerr ++ usageLine argv })) ∧
    (¬ ((argv.length : Int) < 3) → protocolName argv ∉ knownProtocols →
      main B argv s =
        (Status.exit 1, { s with cerr := s.cerr ++ unknownLine (protocolName argv) })) := by
  have h1 : (argv.length : Int) < 3 →
      main B argv s = (Status.exit 1, { s with cerr := s.cerr ++ usageLine argv }) := by
    intro h
    unfold main
    simp [h]
  have h2 : ¬ ((argv.length : Int) < 3) → protocolName argv ∉ knownProtocols →
      main B argv s =
        (Status.exit 1, { s with cerr := s.cerr ++ unknownLine (protocolName argv) }) := by
    intro h hk
    rw [not_known_iff] at hk
    rcases hk with ⟨k1, k2, k3, k4, k5, k6⟩
    unfold main
    simp [h, k1, k2, k3, k4, k5, k6]
  refine ⟨⟨fun h => ?_, fun h => ?_⟩, h1, h2⟩
  · by_cases hargc : (argv.length : Int) < 3
    · exact Or.inl hargc
    · refine Or.inr ?_
      intro hk2
      simp only [knownProtocols, List.mem_cons, List.mem_singleton] at hk2
      unfold main at h
      simp only [hargc, if_false] at h
      rcases hk2 with k | k | k | k | k | k | k
      · simp [k] at h
        exact callRun_ne_exit _ _ _ _ _ _ h
      · simp [k] at h
        exact callRun_ne_exit _ _ _ _ _ _ h
      · simp [k] at h
        exact callRun_ne_exit _ _ _ _ _ _ h
      · simp [k] at h
        exact callRun_ne_exit _ _ _ _ _ _ h
      · simp [k] at h
        split at h
        · simp at h
        · exact callRun_ne_exit _ _ _ _ _ _ h
      · simp [k] at h
        split at h
        · simp at h
        · exact callRun_ne_exit _ _ _ _ _ _ h
      · simp at k
  · rcases h with h | h
    · rw [h1 h]
    · by_cases hargc : (argv.length : Int) < 3
      · rw [h1 hargc]
      · rw [h2 hargc h]

theorem main_exit_one_witness :
    ((main idealBackends ["paper-example", "0"] (startState honestEnv)).1 = Status.exit 1 ↔
      (((["paper-example", "0"] : List String).length : Int) < 3 ∨
        protocolName ["paper-example", "0"] ∉ knownProtocols)) ∧
    main idealBackends ["paper-example", "0"] (startState honestEnv) =
      (Status.exit 1, { startState honestEnv with
        cerr := (startState honestEnv).cerr ++ usageLine ["paper-example", "0"] }) :=
  ⟨(main_exit_one idealBackends ["paper-example", "0"] (startState honestEnv)).1,
   (main_exit_one idealBackends ["paper-example", "0"] (startState honestEnv)).2.1
     (by decide)⟩

/-- C3 (as stated) fails: with the unknown protocol name `Foo`, `main` ends with
`exit(1)` and standard error holds `Unknown protocol: Foo`, which is not the usage
message. -/
theorem unknown_protocol_no_usage :
    (main idealBackends ["paper-example", "0", "2", "Foo"] (startState honestEnv)).1
      = Status.exit 1 ∧
    (main idealBackends ["paper-example", "0", "2", "Foo"] (startState honestEnv)).2.cerr
      = [Tok.str "Unknown protocol: ", Tok.str "Foo", Tok.endl] ∧
    (main idealBackends ["paper-example", "0", "2", "Foo"] (startState honestEnv)).2.cerr
      ≠ usageLine ["paper-example", "0", "2", "Foo"] := by
  refine ⟨by decide, by decide, by decide⟩

theorem argvAt_set (argv : List String) (x : String) (k : Nat) (h : k ≠ 4) :
    argvAt (argv.set 4 x) k = argvAt argv k := by
  simp [argvAt, List.getD_eq_getElem?_getD, List.getElem?_set, Ne.symm h]

theorem protocolName_set (argv : List String) (x : String) :
    protocolName (argv.set 4 x) = protocolName argv := by
  simp [protocolName, argvAt_set]

theorem main_shamir_pass [Inhabited Sh] [Inhabited Clr] (B : ShareT → Collab σ Sh Clr)
    (argv : List String) (s : State σ Sh Clr)
    (hp : protocolName argv = "Shamir" ∨ protocolName argv = "MalShamir")
    (hv : wrapInt (2 * shamirThreshold argv) < atoi (argvAt argv 2)) :
    ∃ T, main B argv s = callRun B T argv 128
      { s with shamir := { threshold := shamirThreshold argv,
                           nparties := atoi (argvAt argv 2) } } := by
  have hargc : ¬ ((argv.length : Int) < 3) := by
    intro h
    have : protocolName argv = "MASCOT" := by
      unfold protocolName
      rw [if_neg (by omega)]
    rcases hp with hp | hp <;> rw [this] at hp <;> simp at hp
  unfold main
  rcases hp with hp | hp
  · exact ⟨_, by simp [hargc, hp, hv]; rfl⟩
  · exact ⟨_, by simp [hargc, hp, hv]; rfl⟩

theorem main_plain [Inhabited Sh] [Inhabited Clr] (B : ShareT → Collab σ Sh Clr)
    (argv : List String) (s : State σ Sh Clr) (hargc : ¬ ((argv.length : Int) < 3))
    (hp : protocolName argv ∈ ["MASCOT", "CowGear", "SPDZ2k", "Semi2k"]) :
    ∃ T pl, main B argv s = callRun B T argv pl s := by
  simp only [List.mem_cons, List.mem_singleton] at hp
  unfold main
  rcases hp with k | k | k | k | k
  · exact ⟨_, _, by simp [hargc, k]; rfl⟩
  · exact ⟨_, _, by simp [hargc, k]; rfl⟩
  · exact ⟨_, _, by simp [hargc, k]; rfl⟩
  · exact ⟨_, _, by simp [hargc, k]; rfl⟩
  · simp at k

theorem runWith_set [Inhabited Sh] [Inhabited Clr] (cl : Collab σ Sh Clr) (n : Nat)
    (argv : List String) (x : String) (prime_length : Int) :
    runWith cl n (argv.set 4 x) prime_length = runWith cl n argv prime_length := by
  unfold runWith
  simp only [argvAt_set argv x 1 (by decide), argvAt_set argv x 2 (by decide)]

theorem main_set [Inhabited Sh] [Inhabited Clr] (B : ShareT → Collab σ Sh Clr)
    (argv : List String) (x : String) (s : State σ Sh Clr)
    (hp : protocolName argv ∈ ["MASCOT", "CowGear", "SPDZ2k", "Semi2k"]) :
    main B (argv.set 4 x) s = main B argv s := by
  simp only [List.mem_cons, List.mem_singleton] at hp
  have hu : (usageLine (argv.set 4 x) : List (Tok Clr)) = usageLine argv := by
    simp [usageLine, argvAt_set]
  unfold main callRun run
  simp only [protocolName_set, runWith_set, List.length_set, hu]
  rcases hp with k | k | k | k | k
  · simp [k]
  · simp [k]
  · simp [k]
  · simp [k]
  · simp at k

theorem claimed_threshold (argv : List String) :
    (wrapInt (2 * shamirThreshold argv) < atoi (argvAt argv 2) ↔
      wrapInt (2 * (if (argv.length : Int) ≤ 4 then (atoi (argvAt argv 2) - 1).tdiv 2
        else atoi (argvAt argv 4))) < atoi (argvAt argv 2)) ∧
    (wrapInt (2 * shamirThreshold argv) < atoi (argvAt argv 2) →
      shamirThreshold argv = (if (argv.length : Int) ≤ 4 then (atoi (argvAt argv 2) - 1).tdiv 2
        else atoi (argvAt argv 4))) := by
  have hr := atoi_range (argvAt argv 2)
  by_cases h : (argv.length : Int) ≤ 4
  · have h2 : ¬ ((argv.length : Int) > 4) := by omega
    have hs : shamirThreshold argv = (wrapInt (atoi (argvAt argv 2) - 1)).tdiv 2 := by
      unfold shamirThreshold
      simp [h2]
    rw [hs]
    simp only [h, if_true]
    by_cases hmin : atoi (argvAt argv 2) = -2147483648
    · rw [hmin]
      refine ⟨⟨fun hc => absurd hc (by decide), fun hc => absurd hc (by decide)⟩,
        fun hc => absurd hc (by decide)⟩
    · rw [wrapInt_eq_self (atoi (argvAt argv 2) - 1) (by omega) (by omega)]
      exact ⟨Iff.rfl, fun _ => rfl⟩
  · have h2 : (argv.length : Int) > 4 := by omega
    have hs : shamirThreshold argv = atoi (argvAt argv 4) := by
      unfold shamirThreshold
      simp [h2]
    rw [hs]
    simp [h]

/-- C4. For the protocol names `Shamir` and `MalShamir`, with `n = atoi(argv[2])`, the
threshold `t` that `main` checks and stores is `(n - 1) / 2` (C++ integer division)
when `argc <= 4` and `atoi(argv[4])` otherwise: when the asserted `2 * t < n`, which
the program evaluates in 32-bit `int` arithmetic, is false of `t`, `main` ends in the
failed assertion, and when it is true `ShamirOptions` holds threshold `t` and party
count `n`; for `t` in `[-2^30, 2^30)` this is the comparison `2 * t < n` of integers.
For the four other known names `ShamirOptions` is left as it was and `argv[4]` is
never read: replacing it changes nothing. -/
theorem shamir_options_stored [Inhabited Sh] [Inhabited Clr] (B : ShareT → Collab σ Sh Clr)
    (argv : List String) (s : State σ Sh Clr) :
    ((protocolName argv = "Shamir" ∨ protocolName argv = "MalShamir") →
      (¬ (wrapInt (2 * (if (argv.length : Int) ≤ 4 then (atoi (argvAt argv 2) - 1).tdiv 2
              else atoi (argvAt argv 4))) < atoi (argvAt argv 2)) →
        main B argv s = (Status.assert_failed, s)) ∧
      (wrapInt (2 * (if (argv.length : Int) ≤ 4 then (atoi (argvAt argv 2) - 1).tdiv 2
              else atoi (argvAt argv 4))) < atoi (argvAt argv 2) →
        (main B argv s).1 ≠ Status.assert_failed ∧
        (main B argv s).2.shamir =
          { threshold := if (argv.length : Int) ≤ 4 then (atoi (argvAt argv 2) - 1).tdiv 2
              else atoi (argvAt argv 4),
            nparties := atoi (argvAt argv 2) })) ∧
    (∀ t : Int, -1073741824 ≤ t → t < 1073741824 → wrapInt (2 * t) = 2 * t) ∧
    (protocolName argv ∈ ["MASCOT", "CowGear", "SPDZ2k", "Semi2k"] →
      (main B argv s).2.shamir = s.shamir ∧
      ∀ x, main B (argv.set 4 x) s = main B argv s) := by
  rcases claimed_threshold argv with ⟨hiff, heq⟩
  refine ⟨fun hp => ⟨fun hv => main_assert_failed B argv s hp (fun hc => hv (hiff.1 hc)),
      fun hv => ?_⟩,
    fun t h1 h2 => wrapInt_eq_self _ (by omega) (by omega),
    fun hp => ⟨?_, fun x => main_set B argv x s hp⟩⟩
  · have hc := hiff.2 hv
    rcases main_shamir_pass B argv s hp hc with ⟨T, hT⟩
    rw [hT, ← heq hc]
    exact ⟨callRun_ne_assert _ _ _ _ _, (callRun_frame _ _ _ _ _).2.2.1⟩
  · by_cases hargc : (argv.length : Int) < 3
    · have h1 : main B argv s = (Status.exit 1, { s with cerr := s.cerr ++ usageLine argv }) := by
        unfold main
        simp [hargc]
      rw [h1]
    · rcases main_plain B argv s hargc hp with ⟨T, pl, hT⟩
      rw [hT]
      exact (callRun_frame _ _ _ _ _).2.2.1

theorem shamir_options_stored_witness :
    (protocolName ["paper-example", "0", "3", "Shamir"] = "Shamir" ∨
      protocolName ["paper-example", "0", "3", "Shamir"] = "MalShamir") ∧
    (main idealBackends ["paper-example", "0", "3", "Shamir"] (startState honestEnv)).2.shamir
      = { threshold := 1, nparties := 3 } :=
  ⟨by decide,
   (((shamir_options_stored idealBackends ["paper-example", "0", "3", "Shamir"]
      (startState honestEnv)).1 (by decide)).2 (by decide)).2⟩

theorem main_ne_assert_of_pass [Inhabited Sh] [Inhabited Clr] (B : ShareT → Collab σ Sh Clr)
    (argv : List String) (s : State σ Sh Clr)
    (hv : wrapInt (2 * shamirThreshold argv) < atoi (argvAt argv 2)) :
    (main B argv s).1 ≠ Status.assert_failed := by
  unfold main
  simp only [hv, not_true_eq_false, if_false]
  repeat' split
  all_goals first
    | exact callRun_ne_assert _ _ _ _ _
    | simp

/-- C10. When no threshold argument is given (`argc <= 4`) and the party count
`n = atoi(argv[2])` is at least 1, the threshold `t = (n - 1) / 2` that `main` computes
satisfies the asserted `2 * t < n` and is the largest integer that does
(`n <= 2 * (t + 1)`), so `main` does not end in the failed assertion, whatever the
protocol name.  For `n = 0` the default threshold is `0` and a `Shamir` or `MalShamir`
invocation ends in the failed assertion. -/
theorem default_threshold_ok [Inhabited Sh] [Inhabited Clr] (B : ShareT → Collab σ Sh Clr)
    (argv : List String) (s : State σ Sh Clr) (hargc : (argv.length : Int) ≤ 4) :
    (1 ≤ atoi (argvAt argv 2) →
      shamirThreshold argv = (atoi (argvAt argv 2) - 1).tdiv 2 ∧
      2 * shamirThreshold argv < atoi (argvAt argv 2) ∧
      atoi (argvAt argv 2) ≤ 2 * (shamirThreshold argv + 1) ∧
      (main B argv s).1 ≠ Status.assert_failed) ∧
    (atoi (argvAt argv 2) = 0 →
      shamirThreshold argv = 0 ∧
      ((protocolName argv = "Shamir" ∨ protocolName argv = "MalShamir") →
        main B argv s = (Status.assert_failed, s))) := by
  have hr := atoi_range (argvAt argv 2)
  have ht : -2147483648 < atoi (argvAt argv 2) →
      shamirThreshold argv = (atoi (argvAt argv 2) - 1).tdiv 2 := by
    intro hmin
    unfold shamirThreshold
    have h2 : ¬ ((argv.length : Int) > 4) := by omega
    simp only [h2, if_false]
    rw [wrapInt_eq_self (atoi (argvAt argv 2) - 1) (by omega) (by omega)]
  refine ⟨fun hn => ?_, fun hn => ?_⟩
  · have h1 : 2 * shamirThreshold argv < atoi (argvAt argv 2) := by
      rw [ht (by omega), Int.tdiv_eq_ediv (by omega) (by omega)]
      omega
    have h2 : atoi (argvAt argv 2) ≤ 2 * (shamirThreshold argv + 1) := by
      rw [ht (by omega), Int.tdiv_eq_ediv (by omega) (by omega)]
      omega
    have h3 : 0 ≤ shamirThreshold argv := by
      rw [ht (by omega), Int.tdiv_eq_ediv (by omega) (by omega)]
      omega
    have h4 : wrapInt (2 * shamirThreshold argv) < atoi (argvAt argv 2) := by
      rw [wrapInt_eq_self _ (by omega) (by omega)]
      exact h1
    exact ⟨ht (by omega), h1, h2, main_ne_assert_of_pass B argv s h4⟩
  · have h0 : shamirThreshold argv = 0 := by
      rw [ht (by omega), hn]
      decide
    refine ⟨h0, fun hp => main_assert_failed B argv s hp ?_⟩
    rw [h0, hn]
    decide

theorem default_threshold_ok_witness :
    (((["paper-example", "0", "3", "Shamir"] : List String).length : Int) ≤ 4) ∧
    1 ≤ atoi (argvAt ["paper-example", "0", "3", "Shamir"] 2) ∧
    2 * shamirThreshold ["paper-example", "0", "3", "Shamir"]
      < atoi (argvAt ["paper-example", "0", "3", "Shamir"] 2) ∧
    (main idealBackends ["paper-example", "0", "3", "Shamir"] (startState honestEnv)).1
      ≠ Status.assert_failed :=
  ⟨by decide, by decide,
   ((default_threshold_ok idealBackends ["paper-example", "0", "3", "Shamir"]
      (startState honestEnv) (by decide)).1 (by decide)).2.1,
   ((default_threshold_ok idealBackends ["paper-example", "0", "3", "Shamir"]
      (startState honestEnv) (by decide)).1 (by decide)).2.2.2⟩

theorem main_enters [Inhabited Sh] [Inhabited Clr] (B : ShareT → Collab σ Sh Clr)
    (argv : List String) (s : State σ Sh Clr) (hargc : ¬ ((argv.length : Int) < 3))
    (hk : protocolName argv ∈ knownProtocols)
    (hs : (protocolName argv = "Shamir" ∨ protocolName argv = "MalShamir") →
      wrapInt (2 * shamirThreshold argv) < atoi (argvAt argv 2)) :
    ∃ T pl rest, (main B argv s).2.trace = s.trace ++ Ev.enter_run T pl ::
      Ev.callV (VoidCall.Names (atoi (argvAt argv 1)) (atoi (argvAt argv 2)) "localhost" 9999)
        :: rest := by
  simp only [knownProtocols, List.mem_cons, List.mem_singleton] at hk
  have plain : protocolName argv ∈ ["MASCOT", "CowGear", "SPDZ2k", "Semi2k"] →
      ∃ T pl rest, (main B argv s).2.trace = s.trace ++ Ev.enter_run T pl ::
      Ev.callV (VoidCall.Names (atoi (argvAt argv 1)) (atoi (argvAt argv 2)) "localhost" 9999)
        :: rest := by
    intro hp
    rcases main_plain B argv s hargc hp with ⟨T, pl, hT⟩
    rw [hT]
    exact ⟨T, pl, (callRun_frame _ _ _ _ _).2.2.2⟩
  have shamir : (protocolName argv = "Shamir" ∨ protocolName argv = "MalShamir") →
      ∃ T pl rest, (main B argv s).2.trace = s.trace ++ Ev.enter_run T pl ::
      Ev.callV (VoidCall.Names (atoi (argvAt argv 1)) (atoi (argvAt argv 2)) "localhost" 9999)
        :: rest := by
    intro hp
    rcases main_shamir_pass B argv s hp (hs hp) with ⟨T, hT⟩
    rw [hT]
    exact ⟨T, 128, (callRun_frame _ _ _ _ _).2.2.2⟩
  rcases hk with k | k | k | k | k | k | k
  · exact plain (by simp [k])
  · exact plain (by simp [k])
  · exact plain (by simp [k])
  · exact plain (by simp [k])
  · exact shamir (Or.inl k)
  · exact shamir (Or.inr k)
  · simp at k

/-- C6 (amended). `main` and `run` make no check of `my_index` or `total_parties`
themselves; the only check is the threshold assertion of the Shamir backends, which the
program evaluates in 32-bit `int` arithmetic.  For every invocation with at least two
positional arguments and a known protocol name that passes that assertion as the
program evaluates it, `run` is entered and its first call constructs `Names` with
`atoi(argv[1])` and `atoi(argv[2])`, whatever their values. -/
theorem main_enters_run_unchecked [Inhabited Sh] [Inhabited Clr]
    (B : ShareT → Collab σ Sh Clr) (argv : List String) (s : State σ Sh Clr)
    (hargc : ¬ ((argv.length : Int) < 3)) (hk : protocolName argv ∈ knownProtocols)
    (hs : (protocolName argv = "Shamir" ∨ protocolName argv = "MalShamir") →
      wrapInt (2 * shamirThreshold argv) < atoi (argvAt argv 2)) :
    ∃ T pl rest, (main B argv s).2.trace = s.trace ++ Ev.enter_run T pl ::
      Ev.callV (VoidCall.Names (atoi (argvAt argv 1)) (atoi (argvAt argv 2)) "localhost" 9999)
        :: rest :=
  main_enters B argv s hargc hk hs

theorem main_enters_run_unchecked_witness :
    ¬ ((((["paper-example", "7", "3", "Shamir"] : List String).length : Int)) < 3) ∧
    protocolName ["paper-example", "7", "3", "Shamir"] ∈ knownProtocols ∧
    protocolName ["paper-example", "7", "3", "Shamir"] = "Shamir" ∧
    wrapInt (2 * shamirThreshold ["paper-example", "7", "3", "Shamir"])
      < atoi (argvAt ["paper-example", "7", "3", "Shamir"] 2) ∧
    ∃ T pl rest, (main idealBackends ["paper-example", "7", "3", "Shamir"]
        (startState honestEnv)).2.trace = (startState honestEnv).trace ++ Ev.enter_run T pl ::
      Ev.callV (VoidCall.Names (atoi (argvAt ["paper-example", "7", "3", "Shamir"] 1))
        (atoi (argvAt ["paper-example", "7", "3", "Shamir"] 2)) "localhost" 9999) :: rest :=
  ⟨by decide, by decide, by decide, by decide,
   main_enters_run_unchecked idealBackends ["paper-example", "7", "3", "Shamir"]
     (startState honestEnv) (by decide) (by decide) (fun _ => by decide)⟩

/-- C6 (as stated) fails: invoked with `my_index = 5` and `total_parties = 1`, which
are invalid (`1 < 2`, and `5` is outside `[0, 1)`), `main` enters `run`, and `run`
constructs `Names` with these values. -/
theorem invalid_parties_reach_Names :
    atoi "1" < 2 ∧ ¬ (0 ≤ atoi "5" ∧ atoi "5" < atoi "1") ∧
    Ev.callV (VoidCall.Names 5 1 "localhost" 9999) ∈
      (main idealBackends ["paper-example", "5", "1"] (startState honestEnv)).2.trace := by
  refine ⟨by decide, by decide, ?_⟩
  rcases main_enters idealBackends ["paper-example", "5", "1"] (startState honestEnv)
    (by decide) (by decide) (by decide) with ⟨T, pl, rest, h⟩
  rw [h]
  have h1 : atoi (argvAt ["paper-example", "5", "1"] 1) = 5 := by decide
  have h2 : atoi (argvAt ["paper-example", "5", "1"] 2) = 1 := by decide
  rw [h1, h2]
  simp

theorem main_assert_failed_in_range [Inhabited Sh] [Inhabited Clr]
    (B : ShareT → Collab σ Sh Clr) (argv : List String) (s : State σ Sh Clr)
    (hp : protocolName argv = "Shamir" ∨ protocolName argv = "MalShamir")
    (h1 : -1073741824 ≤ shamirThreshold argv) (h2 : shamirThreshold argv < 1073741824)
    (hv : ¬ (2 * shamirThreshold argv < atoi (argvAt argv 2))) :
    main B argv s = (Status.assert_failed, s) := by
  refine main_assert_failed B argv s hp ?_
  rw [wrapInt_eq_self _ (by omega) (by omega)]
  exact hv

/-- C2 (the code departs from the claim). Invoked with `Shamir`, `total_parties = 3`
and `threshold = 1073741824`, which violate `2 * t < n`, `main` does not end in the
failed assertion: in 32-bit `int` arithmetic `2 * threshold` is `-2147483648`, the
asserted comparison holds, `ShamirOptions` is set to this threshold, `run` is entered
and `Names` is constructed. -/
theorem threshold_overflow_enters_run :
    protocolName ["paper-example", "0", "3", "Shamir", "1073741824"] = "Shamir" ∧
    atoi (argvAt ["paper-example", "0", "3", "Shamir", "1073741824"] 2) = 3 ∧
    shamirThreshold ["paper-example", "0", "3", "Shamir", "1073741824"] = 1073741824 ∧
    ¬ (2 * shamirThreshold ["paper-example", "0", "3", "Shamir", "1073741824"]
      < atoi (argvAt ["paper-example", "0", "3", "Shamir", "1073741824"] 2)) ∧
    wrapInt (2 * shamirThreshold ["paper-example", "0", "3", "Shamir", "1073741824"])
      = -2147483648 ∧
    (main idealBackends ["paper-example", "0", "3", "Shamir", "1073741824"]
      (startState honestEnv)).1 ≠ Status.assert_failed ∧
    (main idealBackends ["paper-example", "0", "3", "Shamir", "1073741824"]
      (startState honestEnv)).2.shamir = { threshold := 1073741824, nparties := 3 } ∧
    Ev.callV (VoidCall.Names 0 3 "localhost" 9999) ∈
      (main idealBackends ["paper-example", "0", "3", "Shamir", "1073741824"]
        (startState honestEnv)).2.trace := by
  have ht : shamirThreshold ["paper-example", "0", "3", "Shamir", "1073741824"]
      = 1073741824 := by decide
  have h1 : atoi (argvAt ["paper-example", "0", "3", "Shamir", "1073741824"] 1) = 0 := by
    decide
  have h2 : atoi (argvAt ["paper-example", "0", "3", "Shamir", "1073741824"] 2) = 3 := by
    decide
  have hpass : wrapInt (2 * shamirThreshold ["paper-example", "0", "3", "Shamir", "1073741824"])
      < atoi (argvAt ["paper-example", "0", "3", "Shamir", "1073741824"] 2) := by decide
  refine ⟨by decide, h2, ht, by decide, by decide, ?_, ?_, ?_⟩
  · exact main_ne_assert_of_pass idealBackends _ (startState honestEnv) hpass
  · rcases main_shamir_pass idealBackends ["paper-example", "0", "3", "Shamir", "1073741824"]
      (startState honestEnv) (Or.inl (by decide)) hpass with ⟨T, hT⟩
    rw [hT, (callRun_frame _ _ _ _ _).2.2.1, ht, h2]
  · rcases main_enters idealBackends ["paper-example", "0", "3", "Shamir", "1073741824"]
      (startState honestEnv) (by decide) (by decide) (fun _ => hpass) with ⟨T, pl, rest, h⟩
    rw [h, h1, h2]
    simp

/-! ## The result of the ideal run -/

theorem dotUpTo_cons (x y : Int) (a b : List Int) (k : Nat) :
    dotUpTo (x :: a) (y :: b) (k + 1) = x * y + dotUpTo a b k := by
  simp [dotUpTo, List.range_succ_eq_map, List.map_map, Function.comp_def]

theorem mem_iterLog (f : Nat → List (Ev Sh Clr)) (e : Ev Sh Clr) (k : Nat) :
    ∀ (i : Nat), e ∈ iterLog f i k → ∃ j, i ≤ j ∧ j < i + k ∧ e ∈ f j := by
  induction k with
  | zero => intro i h; simp [iterLog] at h
  | succ k ih =>
    intro i h
    simp only [iterLog, List.mem_append] at h
    rcases h with h | h
    · exact ⟨i, Nat.le_refl i, by omega, h⟩
    · rcases ih (i + 1) h with ⟨j, h1, h2, h3⟩
      exact ⟨j, by omega, by omega, h3⟩

theorem calls_append (k : Kind) (l1 l2 : List (Ev Sh Clr)) :
    calls k (l1 ++ l2) = calls k l1 + calls k l2 := by
  simp [calls]

theorem calls_cons (k : Kind) (e : Ev Sh Clr) (l : List (Ev Sh Clr)) :
    calls k (e :: l) = (if e.kind = k then 1 else 0) + calls k l := by
  simp [calls, List.countP_cons, Nat.add_comm]

theorem calls_nil (k : Kind) : calls k ([] : List (Ev Sh Clr)) = 0 := rfl

theorem calls_iterLog (k : Kind) (f : Nat → List (Ev Sh Clr)) (c : Nat)
    (h : ∀ i, calls k (f i) = c) (j : Nat) : ∀ (i : Nat), calls k (iterLog f i j) = j * c := by
  induction j with
  | zero => intro i; simp [iterLog, calls_nil]
  | succ j ih =>
    intro i
    simp only [iterLog, calls_append, h, ih]
    rw [Nat.succ_mul, Nat.add_comm]

theorem calls_eq_zero (k : Kind) (l : List (Ev Sh Clr)) (h : calls k l = 0) :
    ∀ y ∈ l, ¬ (y.kind = k) := by
  intro y hy hk
  have : 0 < calls k l := by
    unfold calls
    rw [List.countP_pos_iff]
    exact ⟨y, hy, by simp [hk]⟩
  omega

theorem split_before {α : Type} (p : α → Prop) (P : List α) :
    ∀ (l1 l2 S : List α) (x : α), (∀ y ∈ P, ¬ p y) → p x → l1 ++ x :: l2 = P ++ S →
      ∃ v, l1 = P ++ v := by
  induction P with
  | nil => intro l1 _ _ _ _ _ _; exact ⟨l1, rfl⟩
  | cons y P ih =>
    intro l1 l2 S x hP hx h
    cases l1 with
    | nil =>
      simp at h
      exact absurd (h.1 ▸ hx) (hP y (by simp))
    | cons z l1 =>
      simp at h
      rcases ih l1 l2 S x (fun w hw => hP w (by simp [hw])) hx h.2 with ⟨v, hv⟩
      exact ⟨v, by simp [h.1, hv]⟩

theorem split_within {α : Type} (p : α → Prop) (M S v l2 : List α) (e : α)
    (hS : ∀ y ∈ S, ¬ p y) (he : p e) (h : v ++ e :: l2 = M ++ S) :
    ∃ w, v ++ e :: w = M ∧ l2 = w ++ S := by
  rcases List.append_eq_append_iff.1 h with ⟨a, h1, h2⟩ | ⟨c, h1, h2⟩
  · cases a with
    | nil =>
      simp at h2
      exact absurd he (hS e (by simp [← h2]))
    | cons z a =>
      simp at h2
      exact ⟨a, by simp [h1, h2.1], h2.2⟩
  · exact absurd he (hS e (by simp [h2]))

theorem split_unique {α : Type} (p : α → Prop) (A B l1 l2 : List α) (x z : α)
    (hA : ∀ y ∈ A, ¬ p y) (hB : ∀ y ∈ B, ¬ p y) (hx : p x)
    (h : l1 ++ x :: l2 = A ++ z :: B) : l1 = A ∧ x = z ∧ l2 = B := by
  rcases split_before p A l1 l2 (z :: B) x hA hx h with ⟨v, hv⟩
  subst hv
  rw [List.append_assoc] at h
  have h2 := List.append_cancel_left h
  cases v with
  | nil =>
    simp at h2
    exact ⟨by simp, h2.1, h2.2⟩
  | cons w v =>
    simp at h2
    exact absurd hx (hB x (by simp [← h2.2]))

theorem calls_addLog (k : Kind) (i j : Nat) :
    calls k (iterLog (addIter : Nat → List (Ev Sh Clr)) i j) =
      j * ((if Kind.input_add_from_all = k then 1 else 0) + (if Kind.ret = k then 1 else 0)) := by
  apply calls_iterLog
  intro i
  simp [addIter, calls_cons, calls_nil, Ev.kind, VoidCall.kind]

theorem calls_finLog [Inhabited Sh] (k : Kind) (a b : List Sh) (i j : Nat) :
    calls k (iterLog (finIter a b : Nat → List (Ev Sh Clr)) i j) =
      j * (2 * (if Kind.input_finalize = k then 1 else 0) + 2 * (if Kind.ret = k then 1 else 0)) := by
  apply calls_iterLog
  intro i
  simp only [finIter, calls_cons, calls_nil, Ev.kind]
  omega

theorem calls_prepLog [Inhabited Sh] (k : Kind) (a b : List Sh) (i j : Nat) :
    calls k (iterLog (prepIter a b : Nat → List (Ev Sh Clr)) i j) =
      j * ((if Kind.prepare_dotprod = k then 1 else 0) + (if Kind.ret = k then 1 else 0)) := by
  apply calls_iterLog
  intro i
  simp [prepIter, calls_cons, calls_nil, Ev.kind, VoidCall.kind]

theorem log_follows [Inhabited Sh] [Inhabited Clr] (cl : Collab σ Sh Clr) (n : Nat)
    (argv : List String) (prime_length : Int) (s0 : State σ Sh Clr) :
    ∃ u, newLog s0 (runWith cl n argv prime_length s0).2 ++ u =
        script n argv prime_length (runWith cl n argv prime_length s0).2.loc ∧
      (u = [] ↔ ∃ x, (runWith cl n argv prime_length s0).1 = Except.ok x) := by
  rcases runWith_outcome cl n argv prime_length s0 with ⟨x, hx, hd⟩ | ⟨e, he, h | h⟩
  · refine ⟨[], ?_, by simp [hx]⟩
    rw [newLog_append _ _ _ hd.1]
    simp
  · rcases h with ⟨⟨l, u, c, h1, _, h3⟩, _⟩
    refine ⟨u ++ finalCheck, ?_, by simp [he, finalCheck]⟩
    rw [newLog_append s0 _ (l ++ [c]) (by rw [h3, List.append_assoc])]
    simp [script, ← h1]
  · refine ⟨[Ev.retV], ?_, by simp [he]⟩
    rw [newLog_append s0 _ _ (by rw [h.1, List.append_assoc])]
    simp [script, finalCheck]

theorem output_after_check [Inhabited Sh] (n : Nat) (argv : List String) (prime_length : Int)
    (L : Locals Sh Clr) (log u l1 l2 : List (Ev Sh Clr)) (e : Ev Sh Clr)
    (h : log ++ u = script n argv prime_length L) (hl : log = l1 ++ e :: l2)
    (he : e.kind.isOutput = true) :
    ∃ v, l1 = setupPhase argv prime_length ++ inputPhase n L.a L.b ++
      dotprodPhase n L.a L.b L.c ++ checkPhase ++ v := by
  have hP : ∀ y ∈ (setupPhase argv prime_length ++ inputPhase n L.a L.b ++
      dotprodPhase n L.a L.b L.c ++ checkPhase : List (Ev Sh Clr)),
      ¬ (y.kind.isOutput = true) := by
    intro y hy hp
    have hz : ∀ k : Kind, k.isOutput = true → calls k (setupPhase argv prime_length ++
        inputPhase n L.a L.b ++ dotprodPhase n L.a L.b L.c ++ checkPhase :
        List (Ev Sh Clr)) = 0 := by
      intro k hk
      cases k <;> simp [Kind.isOutput] at hk <;>
        simp [setupPhase, inputPhase, dotprodPhase, checkPhase, calls_append, calls_cons,
          calls_nil, calls_addLog, calls_finLog, calls_prepLog, Ev.kind, VoidCall.kind]
    exact calls_eq_zero _ _ (hz y.kind hp) y hy rfl
  rw [hl] at h
  refine split_before (fun y => y.kind.isOutput = true) _ l1 (l2 ++ u)
    (openPhase L.c L.result ++ finalCheck) e hP he ?_
  have h2 : l1 ++ e :: (l2 ++ u) = script n argv prime_length L := by
    rw [← h]
    simp
  rw [h2]
  simp [script, scriptBody]

theorem prepare_args [Inhabited Sh] (n : Nat) (argv : List String) (prime_length : Int)
    (L : Locals Sh Clr) (log u l1 l2 : List (Ev Sh Clr)) (x y : Sh)
    (h : log ++ u = script n argv prime_length L)
    (hl : log = l1 ++ Ev.callV (VoidCall.prepare_dotprod x y) :: l2) :
    ∃ v i, i < n ∧ x = L.a.getD i default ∧ y = L.b.getD i default ∧
      l1 = setupPhase argv prime_length ++ inputPhase n L.a L.b ++ v := by
  have hP : ∀ z ∈ (setupPhase argv prime_length ++ inputPhase n L.a L.b : List (Ev Sh Clr)),
      ¬ (z.kind = Kind.prepare_dotprod) := by
    apply calls_eq_zero
    simp [setupPhase, inputPhase, calls_append, calls_cons, calls_nil, calls_addLog,
      calls_finLog, Ev.kind, VoidCall.kind]
  rw [hl] at h
  have hmem : Ev.callV (VoidCall.prepare_dotprod x y) ∈ script n argv prime_length L := by
    rw [← h]
    simp
  have hv : ∃ v, l1 = setupPhase argv prime_length ++ inputPhase n L.a L.b ++ v := by
    refine split_before (fun z => z.kind = Kind.prepare_dotprod) _ l1 (l2 ++ u)
      (dotprodPhase n L.a L.b L.c ++ checkPhase ++ openPhase L.c L.result ++ finalCheck)
      (Ev.callV (VoidCall.prepare_dotprod x y)) hP rfl ?_
    have h2 : l1 ++ Ev.callV (VoidCall.prepare_dotprod x y) :: (l2 ++ u)
        = script n argv prime_length L := by
      rw [← h]
      simp
    rw [h2]
    simp [script, scriptBody]
  rcases hv with ⟨v, hv⟩
  simp only [script, scriptBody, setupPhase, inputPhase, dotprodPhase, checkPhase, openPhase,
    finalCheck, List.mem_append, List.mem_cons, List.mem_singleton] at hmem
  simp at hmem
  rcases hmem with (hm | hm) | hm
  · rcases mem_iterLog _ _ _ _ hm with ⟨j, _, _, hj⟩
    simp [addIter] at hj
  · rcases mem_iterLog _ _ _ _ hm with ⟨j, _, _, hj⟩
    simp [finIter] at hj
  · rcases mem_iterLog _ _ _ _ hm with ⟨j, _, hj2, hj⟩
    simp only [prepIter, List.mem_singleton, List.mem_cons, Ev.callV.injEq,
      VoidCall.prepare_dotprod.injEq, reduceCtorEq, or_false, List.not_mem_nil] at hj
    exact ⟨v, j, by omega, hj.1, hj.2, hv⟩

/-- C7. In every execution of `run` the collaborator calls follow the fixed script
setup, input (`reset_all`, `add_from_all` n times, `exchange`, `finalize`), dot product
(`init_dotprod`, `prepare_dotprod` n times, `next_dotprod`, `exchange`,
`finalize_dotprod`), `protocol.check`, open (`init_open`, `prepare_open`, `exchange`,
`finalize_open`), `output.Check`: the log of the run is an initial part of the script,
and the whole script exactly when the run returns.  Before any call on `output` the
log holds all of setup, input, dot product and a returned `protocol.check()`; and every
pair passed to `prepare_dotprod` is `a[i]`, `b[i]` for some `i < n`, the shares returned
by `input.finalize(0)` and `input.finalize(1)` in the input phase, which lies wholly
before the call (`run` is `runWith 1000`). -/
theorem run_follows_script [Inhabited Sh] [Inhabited Clr] (cl : Collab σ Sh Clr) (n : Nat)
    (argv : List String) (prime_length : Int) (s0 : State σ Sh Clr) :
    (∃ u, newLog s0 (runWith cl n argv prime_length s0).2 ++ u =
        script n argv prime_length (runWith cl n argv prime_length s0).2.loc ∧
      (u = [] ↔ ∃ x, (runWith cl n argv prime_length s0).1 = Except.ok x)) ∧
    (∀ l1 l2 e, newLog s0 (runWith cl n argv prime_length s0).2 = l1 ++ e :: l2 →
      e.kind.isOutput = true →
      ∃ v, l1 = setupPhase argv prime_length ++
        inputPhase n (runWith cl n argv prime_length s0).2.loc.a
          (runWith cl n argv prime_length s0).2.loc.b ++
        dotprodPhase n (runWith cl n argv prime_length s0).2.loc.a
          (runWith cl n argv prime_length s0).2.loc.b
          (runWith cl n argv prime_length s0).2.loc.c ++ checkPhase ++ v) ∧
    (∀ l1 l2 x y, newLog s0 (runWith cl n argv prime_length s0).2 =
        l1 ++ Ev.callV (VoidCall.prepare_dotprod x y) :: l2 →
      ∃ v i, i < n ∧ x = (runWith cl n argv prime_length s0).2.loc.a.getD i default ∧
        y = (runWith cl n argv prime_length s0).2.loc.b.getD i default ∧
        l1 = setupPhase argv prime_length ++
          inputPhase n (runWith cl n argv prime_length s0).2.loc.a
            (runWith cl n argv prime_length s0).2.loc.b ++ v) := by
  rcases log_follows cl n argv prime_length s0 with ⟨u, hu, hiff⟩
  exact ⟨⟨u, hu, hiff⟩,
    fun l1 l2 e hl he => output_after_check n argv prime_length _ _ u l1 l2 e hu hl he,
    fun l1 l2 x y hl => prepare_args n argv prime_length _ _ u l1 l2 x y hu hl⟩

theorem calls_Check_body [Inhabited Sh] (n : Nat) (argv : List String) (prime_length : Int)
    (L : Locals Sh Clr) : calls Kind.output_Check (scriptBody n argv prime_length L) = 0 := by
  simp [scriptBody, setupPhase, inputPhase, dotprodPhase, checkPhase, openPhase, calls_append,
    calls_cons, calls_nil, calls_addLog, calls_finLog, calls_prepLog, Ev.kind, VoidCall.kind]

theorem printed_iff_Check [Inhabited Sh] [Inhabited Clr] (cl : Collab σ Sh Clr) (n : Nat)
    (argv : List String) (prime_length : Int) (s0 : State σ Sh Clr) :
    (Ev.callV VoidCall.output_Check ∈ newLog s0 (runWith cl n argv prime_length s0).2 ∧
      (runWith cl n argv prime_length s0).2.cout =
        s0.cout ++ resultLine (runWith cl n argv prime_length s0).2.loc.result) ∨
    (Ev.callV VoidCall.output_Check ∉ newLog s0 (runWith cl n argv prime_length s0).2 ∧
      (runWith cl n argv prime_length s0).2.cout = s0.cout) := by
  rcases runWith_outcome cl n argv prime_length s0 with ⟨x, hx, hd⟩ | ⟨e, he, h | h⟩
  · refine Or.inl ⟨?_, hd.2.1⟩
    rw [newLog_append _ _ _ hd.1]
    simp [script, finalCheck]
  · rcases h with ⟨⟨l, u, c, h1, _, h3⟩, h4, _⟩
    refine Or.inr ⟨?_, h4⟩
    rw [newLog_append s0 _ (l ++ [c]) (by rw [h3, List.append_assoc])]
    intro hmem
    have hb : Ev.callV VoidCall.output_Check ∈ scriptBody n argv prime_length
        (runWith cl n argv prime_length s0).2.loc := by
      rw [← h1]
      simp only [List.mem_append, List.mem_cons, List.mem_singleton, List.not_mem_nil,
        or_false] at hmem ⊢
      rcases hmem with hm | hm
      · exact Or.inl hm
      · exact Or.inr (Or.inl hm)
    exact calls_eq_zero _ _ (calls_Check_body n argv prime_length _) _ hb rfl
  · refine Or.inl ⟨?_, h.2.1⟩
    rw [newLog_append s0 _ _ (by rw [h.1, List.append_assoc])]
    simp

/-- C5 (amended). `run` prints the result line before it calls `output.Check` (source
lines 120 and 123).  So in every run in which `output.Check` is called, whether it
then reports failure or not, the result line is already on standard output; a failing
`output.Check` aborts the run after the result has been printed.  The result line is
absent exactly from the runs that end before `output.Check` is called, among them
every run aborted by `protocol.check`. -/
theorem result_printed_before_Check [Inhabited Sh] [Inhabited Clr] (cl : Collab σ Sh Clr)
    (n : Nat) (argv : List String) (prime_length : Int) (s0 : State σ Sh Clr) :
    (Ev.callV VoidCall.output_Check ∈ newLog s0 (runWith cl n argv prime_length s0).2 →
      (runWith cl n argv prime_length s0).2.cout =
        s0.cout ++ resultLine (runWith cl n argv prime_length s0).2.loc.result) ∧
    (Ev.callV VoidCall.output_Check ∉ newLog s0 (runWith cl n argv prime_length s0).2 →
      (runWith cl n argv prime_length s0).2.cout = s0.cout) ∧
    (∀ e, (runWith cl n argv prime_length s0).1 = Except.error e →
      (newLog s0 (runWith cl n argv prime_length s0).2).getLast? =
        some (Ev.callV VoidCall.output_Check) →
      (runWith cl n argv prime_length s0).2.cout =
        s0.cout ++ resultLine (runWith cl n argv prime_length s0).2.loc.result) := by
  have key := printed_iff_Check cl n argv prime_length s0
  refine ⟨fun h => ?_, fun h => ?_, fun e _ h => ?_⟩
  · rcases key with ⟨_, h2⟩ | ⟨h1, _⟩
    · exact h2
    · exact absurd h h1
  · rcases key with ⟨h1, _⟩ | ⟨_, h2⟩
    · exact absurd h1 h
    · exact h2
  · rcases key with ⟨_, h2⟩ | ⟨h1, _⟩
    · exact h2
    · exact absurd (List.mem_of_getLast?_eq_some h) h1

theorem dotUpTo_nil (b : List Int) (k : Nat) : dotUpTo [] b k = 0 := by
  simp [dotUpTo]

theorem idealResult_tampered : idealResult tamperedEnv 1000 = 32 := by
  have h : dotUpTo [1, 2, 3] [4, 5, 6] (997 + 1 + 1 + 1) = 32 := by
    rw [dotUpTo_cons, dotUpTo_cons, dotUpTo_cons, dotUpTo_nil]
    decide
  have hv0 : tamperedEnv.values.getD 0 [] = [1, 2, 3] := rfl
  have hv1 : tamperedEnv.values.getD 1 [] = [4, 5, 6] := rfl
  have hm : tamperedEnv.modulus = 2 ^ 128 - 159 := rfl
  unfold idealResult
  rw [hv0, hv1, hm]
  show dotUpTo [1, 2, 3] [4, 5, 6] (997 + 1 + 1 + 1) % (2 ^ 128 - 159) = 32
  rw [h]
  norm_num

/-- C5 (as stated) fails: on ideal collaborators where a party corrupts a MAC share of
the opened value, `run` is aborted by the integrity failure of `output.Check`, the
last call of its log, and the result line is on standard output. -/
theorem tampered_result_printed :
    (run idealCollab ["paper-example", "0", "2"] 128 (startState tamperedEnv)).1
      = Except.error Err.IntegrityCheckFailure ∧
    (newLog (startState tamperedEnv)
      (run idealCollab ["paper-example", "0", "2"] 128 (startState tamperedEnv)).2).getLast?
      = some (Ev.callV VoidCall.output_Check) ∧
    (run idealCollab ["paper-example", "0", "2"] 128 (startState tamperedEnv)).2.cout
      = [Tok.str "result: ", Tok.clear 32, Tok.endl] := by
  rw [← idealResult_tampered]
  unfold run
  have hi := triple_outcome (ideal_run 1000 ["paper-example", "0", "2"] 128
    (startState tamperedEnv) (by decide)) (startState tamperedEnv) rfl
  have hg := runWith_outcome idealCollab 1000 ["paper-example", "0", "2"] 128
    (startState tamperedEnv)
  rcases hi with ⟨x, _, _, h, _⟩ | ⟨e, he, rfl, h⟩
  · simp [startState, tamperedEnv] at h
  · rcases h with ⟨h, _⟩ | ⟨_, _, hc⟩
    · simp [startState, tamperedEnv, honestEnv] at h
    · have hc2 : (runWith idealCollab 1000 ["paper-example", "0", "2"] 128
          (startState tamperedEnv)).2.cout
          = [Tok.str "result: ", Tok.clear (idealResult tamperedEnv 1000), Tok.endl] := by
        rw [hc]
        simp [startState, resultLine]
      refine ⟨he, ?_, hc2⟩
      rcases hg with ⟨x, hx, _⟩ | ⟨e2, _, hE | hL⟩
      · rw [hx] at he
        simp at he
      · have := hE.2.1
        rw [hc2] at this
        simp [startState] at this
      · rw [newLog_append _ _ _ (by rw [hL.1, List.append_assoc])]
        simp

theorem anchor_split (k : Kind) (F A B log u l1 l2 : List (Ev Sh Clr)) (x z : Ev Sh Clr)
    (hF : F = A ++ z :: B) (hA : calls k A = 0) (hB : calls k B = 0) (hx : x.kind = k)
    (h : log ++ u = F) (hl : log = l1 ++ x :: l2) : l1 = A ∧ x = z ∧ l2 ++ u = B := by
  rw [hl, hF] at h
  have h2 : l1 ++ x :: (l2 ++ u) = A ++ z :: B := by
    rw [← h]
    simp
  exact split_unique (fun y => y.kind = k) A B l1 (l2 ++ u) x z (calls_eq_zero k A hA)
    (calls_eq_zero k B hB) hx h2

theorem calls_le_of_append (k : Kind) (l u F : List (Ev Sh Clr)) (h : l ++ u = F) :
    calls k l ≤ calls k F := by
  rw [← h, calls_append]
  omega

theorem calls_script [Inhabited Sh] (n : Nat) (argv : List String) (prime_length : Int)
    (L : Locals Sh Clr) :
    calls Kind.input_exchange (script n argv prime_length L) = 1 ∧
    calls Kind.protocol_exchange (script n argv prime_length L) = 1 ∧
    calls Kind.output_exchange (script n argv prime_length L) = 1 := by
  refine ⟨?_, ?_, ?_⟩ <;>
    simp [script, scriptBody, setupPhase, inputPhase, dotprodPhase, checkPhase, openPhase,
      finalCheck, calls_append, calls_cons, calls_nil, calls_addLog, calls_finLog,
      calls_prepLog, Ev.kind, VoidCall.kind]

theorem at_protocol_exchange [Inhabited Sh] (n : Nat) (argv : List String)
    (prime_length : Int) (L : Locals Sh Clr) (log u l1 l2 : List (Ev Sh Clr))
    (h : log ++ u = script n argv prime_length L)
    (hl : log = l1 ++ Ev.callV VoidCall.protocol_exchange :: l2) :
    calls Kind.init_dotprod l1 = 1 ∧ calls Kind.prepare_dotprod l1 = n ∧
    calls Kind.finalize_dotprod l1 = 0 ∧ calls Kind.protocol_exchange l1 = 0 ∧
    calls Kind.prepare_dotprod l2 = 0 ∧ calls Kind.protocol_exchange l2 = 0 := by
  have hF : script n argv prime_length L =
      (setupPhase argv prime_length ++ inputPhase n L.a L.b ++
        ([Ev.callV VoidCall.init_dotprod, Ev.retV] ++ iterLog (prepIter L.a L.b) 0 n ++
          [Ev.callV VoidCall.next_dotprod, Ev.retV])) ++
      Ev.callV VoidCall.protocol_exchange ::
        ([Ev.retV, Ev.callS (ShareCall.finalize_dotprod n), Ev.retS L.c] ++ checkPhase ++
          openPhase L.c L.result ++ finalCheck) := by
    simp [script, scriptBody, dotprodPhase]
  rcases anchor_split Kind.protocol_exchange _ _ _ log u l1 l2
    (Ev.callV VoidCall.protocol_exchange) _ hF
    (by simp [setupPhase, inputPhase, calls_append, calls_cons, calls_nil, calls_addLog,
      calls_finLog, calls_prepLog, Ev.kind, VoidCall.kind])
    (by simp [checkPhase, openPhase, finalCheck, calls_append, calls_cons, calls_nil,
      Ev.kind, VoidCall.kind])
    rfl h hl with ⟨h1, _, h3⟩
  have hB : ∀ k : Kind, calls k l2 ≤ calls k
      ([Ev.retV, Ev.callS (ShareCall.finalize_dotprod n), Ev.retS L.c] ++ checkPhase ++
          openPhase L.c L.result ++ finalCheck : List (Ev Sh Clr)) :=
    fun k => calls_le_of_append k l2 u _ h3
  have hp := hB Kind.prepare_dotprod
  have he := hB Kind.protocol_exchange
  simp [checkPhase, openPhase, finalCheck, calls_append, calls_cons, calls_nil,
      Ev.kind, VoidCall.kind] at hp he
  subst h1
  refine ⟨?_, ?_, ?_, ?_, hp, he⟩ <;>
    simp [setupPhase, inputPhase, calls_append, calls_cons, calls_nil, calls_addLog,
      calls_finLog, calls_prepLog, Ev.kind, VoidCall.kind]

theorem at_finalize_dotprod [Inhabited Sh] (n : Nat) (argv : List String)
    (prime_length : Int) (L : Locals Sh Clr) (log u l1 l2 : List (Ev Sh Clr)) (k : Int)
    (h : log ++ u = script n argv prime_length L)
    (hl : log = l1 ++ Ev.callS (ShareCall.finalize_dotprod k) :: l2) :
    k = n ∧ calls Kind.protocol_exchange l1 = 1 ∧
    ∃ l0 m, l1 = l0 ++ Ev.callV VoidCall.init_dotprod :: m ∧
      calls Kind.prepare_dotprod l0 = 0 ∧ calls Kind.init_dotprod l0 = 0 ∧
      calls Kind.prepare_dotprod m = n ∧ calls Kind.init_dotprod m = 0 ∧
      calls Kind.protocol_exchange l0 = 0 ∧ calls Kind.protocol_exchange m = 1 := by
  have hF : script n argv prime_length L =
      (setupPhase argv prime_length ++ inputPhase n L.a L.b ++
        ([Ev.callV VoidCall.init_dotprod, Ev.retV] ++ iterLog (prepIter L.a L.b) 0 n ++
          [Ev.callV VoidCall.next_dotprod, Ev.retV,
           Ev.callV VoidCall.protocol_exchange, Ev.retV])) ++
      Ev.callS (ShareCall.finalize_dotprod n) ::
        ([Ev.retS L.c] ++ checkPhase ++ openPhase L.c L.result ++ finalCheck) := by
    simp [script, scriptBody, dotprodPhase]
  rcases anchor_split Kind.finalize_dotprod _ _ _ log u l1 l2
    (Ev.callS (ShareCall.finalize_dotprod k)) _ hF
    (by simp [setupPhase, inputPhase, calls_append, calls_cons, calls_nil, calls_addLog,
      calls_finLog, calls_prepLog, Ev.kind, VoidCall.kind])
    (by simp [checkPhase, openPhase, finalCheck, calls_append, calls_cons, calls_nil,
      Ev.kind, VoidCall.kind])
    rfl h hl with ⟨h1, h2, _⟩
  subst h1
  refine ⟨by simpa using h2, ?_, setupPhase argv prime_length ++ inputPhase n L.a L.b,
    [Ev.retV] ++ iterLog (prepIter L.a L.b) 0 n ++
      [Ev.callV VoidCall.next_dotprod, Ev.retV, Ev.callV VoidCall.protocol_exchange, Ev.retV],
    by simp, ?_, ?_, ?_, ?_, ?_, ?_⟩ <;>
    simp [setupPhase, inputPhase, calls_append, calls_cons, calls_nil, calls_addLog,
      calls_finLog, calls_prepLog, Ev.kind, VoidCall.kind]

theorem at_finalize_open [Inhabited Sh] (n : Nat) (argv : List String)
    (prime_length : Int) (L : Locals Sh Clr) (log u l1 l2 : List (Ev Sh Clr))
    (h : log ++ u = script n argv prime_length L)
    (hl : log = l1 ++ Ev.callC ClearCall.finalize_open :: l2) :
    calls Kind.init_open l1 = 1 ∧ calls Kind.prepare_open l1 = 1 ∧
    calls Kind.output_exchange l1 = 1 ∧ calls Kind.finalize_open l1 = 0 ∧
    calls Kind.finalize_open l2 = 0 ∧ calls Kind.prepare_open l2 = 0 := by
  have hF : script n argv prime_length L =
      (setupPhase argv prime_length ++ inputPhase n L.a L.b ++ dotprodPhase n L.a L.b L.c ++
        checkPhase ++
        [Ev.callV VoidCall.init_open, Ev.retV, Ev.callV (VoidCall.prepare_open L.c), Ev.retV,
         Ev.callV VoidCall.output_exchange, Ev.retV]) ++
      Ev.callC ClearCall.finalize_open :: ([Ev.retC L.result] ++ finalCheck) := by
    simp [script, scriptBody, openPhase]
  rcases anchor_split Kind.finalize_open _ _ _ log u l1 l2
    (Ev.callC ClearCall.finalize_open) _ hF
    (by simp [setupPhase, inputPhase, dotprodPhase, checkPhase, calls_append, calls_cons,
      calls_nil, calls_addLog, calls_finLog, calls_prepLog, Ev.kind, VoidCall.kind])
    (by simp [finalCheck, calls_append, calls_cons, calls_nil, Ev.kind, VoidCall.kind])
    rfl h hl with ⟨h1, _, h3⟩
  have hB : ∀ k : Kind, calls k l2 ≤ calls k
      ([Ev.retC L.result] ++ finalCheck : List (Ev Sh Clr)) :=
    fun k => calls_le_of_append k l2 u _ h3
  have hp := hB Kind.finalize_open
  have he := hB Kind.prepare_open
  simp [finalCheck, calls_append, calls_cons, calls_nil, Ev.kind, VoidCall.kind] at hp he
  subst h1
  refine ⟨?_, ?_, ?_, ?_, hp, he⟩ <;>
    simp [setupPhase, inputPhase, dotprodPhase, checkPhase, calls_append, calls_cons,
      calls_nil, calls_addLog, calls_finLog, calls_prepLog, Ev.kind, VoidCall.kind]

/-- C8. For every vector length `n` and whatever the collaborators do, `run` calls
`protocol.exchange()` at most once, and exactly once when it returns; likewise
`input.exchange()` and `output.exchange()`.  When `protocol.exchange()` is called,
`init_dotprod` has been called once, all `n` calls of `prepare_dotprod` have been made
and `finalize_dotprod` has not; after it there is no further `prepare_dotprod` and no
second `protocol.exchange()`.  When `finalize_dotprod` is called, `protocol.exchange()`
has been called exactly once (`run` is `runWith 1000`). -/
theorem exchange_once [Inhabited Sh] [Inhabited Clr] (cl : Collab σ Sh Clr) (n : Nat)
    (argv : List String) (prime_length : Int) (s0 : State σ Sh Clr) :
    (calls Kind.input_exchange (newLog s0 (runWith cl n argv prime_length s0).2) ≤ 1 ∧
      calls Kind.protocol_exchange (newLog s0 (runWith cl n argv prime_length s0).2) ≤ 1 ∧
      calls Kind.output_exchange (newLog s0 (runWith cl n argv prime_length s0).2) ≤ 1) ∧
    ((∃ x, (runWith cl n argv prime_length s0).1 = Except.ok x) →
      calls Kind.input_exchange (newLog s0 (runWith cl n argv prime_length s0).2) = 1 ∧
      calls Kind.protocol_exchange (newLog s0 (runWith cl n argv prime_length s0).2) = 1 ∧
      calls Kind.output_exchange (newLog s0 (runWith cl n argv prime_length s0).2) = 1 ∧
      calls Kind.prepare_dotprod (newLog s0 (runWith cl n argv prime_length s0).2) = n) ∧
    (∀ l1 l2, newLog s0 (runWith cl n argv prime_length s0).2 =
        l1 ++ Ev.callV VoidCall.protocol_exchange :: l2 →
      calls Kind.init_dotprod l1 = 1 ∧ calls Kind.prepare_dotprod l1 = n ∧
      calls Kind.finalize_dotprod l1 = 0 ∧ calls Kind.protocol_exchange l1 = 0 ∧
      calls Kind.prepare_dotprod l2 = 0 ∧ calls Kind.protocol_exchange l2 = 0) ∧
    (∀ l1 l2 k, newLog s0 (runWith cl n argv prime_length s0).2 =
        l1 ++ Ev.callS (ShareCall.finalize_dotprod k) :: l2 →
      calls Kind.protocol_exchange l1 = 1) := by
  rcases log_follows cl n argv prime_length s0 with ⟨u, hu, hiff⟩
  have hs := calls_script n argv prime_length (runWith cl n argv prime_length s0).2.loc
  refine ⟨⟨?_, ?_, ?_⟩, fun hx => ?_,
    fun l1 l2 hl => at_protocol_exchange n argv prime_length _ _ u l1 l2 hu hl,
    fun l1 l2 k hl => (at_finalize_dotprod n argv prime_length _ _ u l1 l2 k hu hl).2.1⟩
  · exact hs.1 ▸ calls_le_of_append _ _ u _ hu
  · exact hs.2.1 ▸ calls_le_of_append _ _ u _ hu
  · exact hs.2.2 ▸ calls_le_of_append _ _ u _ hu
  · have hnil := hiff.2 hx
    subst hnil
    rw [List.append_nil] at hu
    rw [hu]
    refine ⟨hs.1, hs.2.1, hs.2.2, ?_⟩
    simp [script, scriptBody, setupPhase, inputPhase, dotprodPhase, checkPhase, openPhase,
      finalCheck, calls_append, calls_cons, calls_nil, calls_addLog, calls_finLog,
      calls_prepLog, Ev.kind, VoidCall.kind]

/-! ## Call counts of the input phase -/

theorem finalizeCalls_append (o : Int) (l1 l2 : List (Ev Sh Clr)) :
    finalizeCalls o (l1 ++ l2) = finalizeCalls o l1 + finalizeCalls o l2 := by
  simp [finalizeCalls]

theorem kind_of_isFinalize (o : Int) (e : Ev Sh Clr) (h : e.isFinalize o = true) :
    e.kind = Kind.input_finalize := by
  cases e with
  | callS c =>
    cases c with
    | input_finalize o2 => rfl
    | finalize_dotprod k => simp [Ev.isFinalize] at h
  | callV c => simp [Ev.isFinalize] at h
  | enter_run T p => simp [Ev.isFinalize] at h
  | callC c => simp [Ev.isFinalize] at h
  | retV => simp [Ev.isFinalize] at h
  | retS x => simp [Ev.isFinalize] at h
  | retC x => simp [Ev.isFinalize] at h

theorem finalizeCalls_le_calls (o : Int) (l : List (Ev Sh Clr)) :
    finalizeCalls o l ≤ calls Kind.input_finalize l := by
  unfold finalizeCalls calls
  apply List.countP_mono_left
  intro e _ he
  simp [kind_of_isFinalize o e he]

theorem finalizeCalls_finLog [Inhabited Sh] (o : Int) (a b : List Sh) (j : Nat) :
    ∀ (i : Nat), finalizeCalls o (iterLog (finIter a b : Nat → List (Ev Sh Clr)) i j) =
      j * ((if (0 : Int) = o then 1 else 0) + (if (1 : Int) = o then 1 else 0)) := by
  induction j with
  | zero => intro i; simp [iterLog, finalizeCalls]
  | succ j ih =>
    intro i
    simp only [iterLog, finalizeCalls_append, ih]
    have h : finalizeCalls o (finIter a b i : List (Ev Sh Clr)) =
        (if (0 : Int) = o then 1 else 0) + (if (1 : Int) = o then 1 else 0) := by
      simp [finalizeCalls, finIter, List.countP_cons, Ev.isFinalize]
      omega
    rw [h, Nat.succ_mul, Nat.add_comm]

theorem at_input_finalize [Inhabited Sh] (n : Nat) (argv : List String)
    (prime_length : Int) (L : Locals Sh Clr) (log u l1 l2 : List (Ev Sh Clr)) (o : Int)
    (h : log ++ u = script n argv prime_length L)
    (hl : log = l1 ++ Ev.callS (ShareCall.input_finalize o) :: l2) :
    (o = 0 ∨ o = 1) ∧ calls Kind.input_exchange l1 = 1 ∧
    calls Kind.input_add_from_all l1 = n ∧ finalizeCalls o l1 < n := by
  have hF : script n argv prime_length L =
      (setupPhase argv prime_length ++ ([Ev.callV VoidCall.input_reset_all, Ev.retV] ++
        iterLog addIter 0 n ++ [Ev.callV VoidCall.input_exchange, Ev.retV])) ++
      (iterLog (finIter L.a L.b) 0 n ++
        (dotprodPhase n L.a L.b L.c ++ checkPhase ++ openPhase L.c L.result ++ finalCheck)) := by
    simp [script, scriptBody, inputPhase]
  have hP : calls Kind.input_finalize
      (setupPhase argv prime_length ++ ([Ev.callV VoidCall.input_reset_all, Ev.retV] ++
        iterLog addIter 0 n ++ [Ev.callV VoidCall.input_exchange, Ev.retV]) :
        List (Ev Sh Clr)) = 0 := by
    simp [setupPhase, calls_append, calls_cons, calls_nil, calls_addLog, Ev.kind, VoidCall.kind]
  have hS : calls Kind.input_finalize
      (dotprodPhase n L.a L.b L.c ++ checkPhase ++ openPhase L.c L.result ++ finalCheck :
        List (Ev Sh Clr)) = 0 := by
    simp [dotprodPhase, checkPhase, openPhase, finalCheck, calls_append, calls_cons,
      calls_nil, calls_prepLog, Ev.kind, VoidCall.kind]
  have h2 : l1 ++ Ev.callS (ShareCall.input_finalize o) :: (l2 ++ u) =
      script n argv prime_length L := by
    rw [← h, hl]
    simp
  rw [hF] at h2
  rcases split_before (fun y => y.kind = Kind.input_finalize) _ l1 (l2 ++ u) _
    (Ev.callS (ShareCall.input_finalize o)) (calls_eq_zero _ _ hP) rfl h2 with ⟨v, hv⟩
  subst hv
  rw [List.append_assoc] at h2
  have h3 := List.append_cancel_left h2
  rcases split_within (fun y => y.kind = Kind.input_finalize) _ _ v (l2 ++ u)
    (Ev.callS (ShareCall.input_finalize o)) (calls_eq_zero _ _ hS) rfl h3 with ⟨w, hw, _⟩
  have hmem : Ev.callS (ShareCall.input_finalize o) ∈
      iterLog (finIter L.a L.b : Nat → List (Ev Sh Clr)) 0 n := by
    rw [← hw]
    simp
  rcases mem_iterLog _ _ _ _ hmem with ⟨j, _, _, hj⟩
  have ho : o = 0 ∨ o = 1 := by
    simp [finIter] at hj
    exact hj
  have hcount : finalizeCalls o (iterLog (finIter L.a L.b : Nat → List (Ev Sh Clr)) 0 n) = _ :=
    finalizeCalls_finLog o L.a L.b n 0
  rw [← hw, finalizeCalls_append] at hcount
  have hone : finalizeCalls o
      (Ev.callS (ShareCall.input_finalize o) :: w : List (Ev Sh Clr)) =
      1 + finalizeCalls o w := by
    simp [finalizeCalls, List.countP_cons, Ev.isFinalize, Nat.add_comm]
  rw [hone] at hcount
  have hfv : finalizeCalls o v < n := by
    rcases ho with ho | ho <;> subst ho <;> simp at hcount <;> omega
  have hfP := finalizeCalls_le_calls o
    (setupPhase argv prime_length ++ ([Ev.callV VoidCall.input_reset_all, Ev.retV] ++
        iterLog addIter 0 n ++ [Ev.callV VoidCall.input_exchange, Ev.retV]) :
        List (Ev Sh Clr))
  rw [hP] at hfP
  have hve := calls_le_of_append Kind.input_exchange v _ _ hw
  have hva := calls_le_of_append Kind.input_add_from_all v _ _ hw
  simp [calls_finLog] at hve hva
  refine ⟨ho, ?_, ?_, ?_⟩
  · rw [calls_append, hve]
    simp [setupPhase, calls_append, calls_cons, calls_nil, calls_addLog, Ev.kind, VoidCall.kind]
  · rw [calls_append, hva]
    simp [setupPhase, calls_append, calls_cons, calls_nil, calls_addLog, Ev.kind, VoidCall.kind]
  · rw [finalizeCalls_append]
    omega

theorem finalizeCalls_script [Inhabited Sh] (n : Nat) (argv : List String)
    (prime_length : Int) (L : Locals Sh Clr) :
    finalizeCalls 0 (script n argv prime_length L) = n ∧
    finalizeCalls 1 (script n argv prime_length L) = n ∧
    calls Kind.input_add_from_all (script n argv prime_length L) = n := by
  have hz : ∀ (o : Int) (l : List (Ev Sh Clr)), calls Kind.input_finalize l = 0 →
      finalizeCalls o l = 0 := by
    intro o l h
    have := finalizeCalls_le_calls o l
    omega
  have h1 : ∀ (o : Int), finalizeCalls o (script n argv prime_length L) =
      finalizeCalls o (iterLog (finIter L.a L.b : Nat → List (Ev Sh Clr)) 0 n) := by
    intro o
    have hF : script n argv prime_length L =
        (setupPhase argv prime_length ++ ([Ev.callV VoidCall.input_reset_all, Ev.retV] ++
          iterLog addIter 0 n ++ [Ev.callV VoidCall.input_exchange, Ev.retV])) ++
        (iterLog (finIter L.a L.b) 0 n ++
          (dotprodPhase n L.a L.b L.c ++ checkPhase ++ openPhase L.c L.result ++
            finalCheck)) := by
      simp [script, scriptBody, inputPhase]
    have e1 := hz o (setupPhase argv prime_length ++
        ([Ev.callV VoidCall.input_reset_all, Ev.retV] ++
          iterLog addIter 0 n ++ [Ev.callV VoidCall.input_exchange, Ev.retV]) :
        List (Ev Sh Clr))
      (by simp [setupPhase, calls_append, calls_cons, calls_nil, calls_addLog,
        Ev.kind, VoidCall.kind])
    have e2 := hz o (dotprodPhase n L.a L.b L.c ++ checkPhase ++ openPhase L.c L.result ++
        finalCheck : List (Ev Sh Clr))
      (by simp [dotprodPhase, checkPhase, openPhase, finalCheck, calls_append, calls_cons,
        calls_nil, calls_prepLog, Ev.kind, VoidCall.kind])
    rw [hF, finalizeCalls_append o (setupPhase argv prime_length ++ _) _, e1,
      finalizeCalls_append, e2]
    omega
  refine ⟨?_, ?_, ?_⟩
  · rw [h1, finalizeCalls_finLog]
    simp
  · rw [h1, finalizeCalls_finLog]
    simp
  · simp [script, scriptBody, setupPhase, inputPhase, dotprodPhase, checkPhase, openPhase,
      finalCheck, calls_append, calls_cons, calls_nil, calls_addLog, calls_finLog,
      calls_prepLog, Ev.kind, VoidCall.kind]

theorem ideal_no_protocol_error (n : Nat) (argv : List String) (prime_length : Int)
    (s1 : State Ideal Int Int) (hnp : 2 ≤ atoi (argvAt argv 2)) :
    (runWith idealCollab n argv prime_length s1).1 ≠ Except.error Err.ProtocolError := by
  intro h
  rcases triple_outcome (ideal_run n argv prime_length s1 hnp) s1 rfl with
    ⟨x, hx, _⟩ | ⟨e, he, h2, _⟩
  · rw [hx] at h
    simp at h
  · rw [he, h2] at h
    simp at h

/-- C9. The driver respects the call-count preconditions of its collaborators, for
every `n` and whatever the collaborators do.  When `finalize_dotprod(k)` is called,
`k = n` and exactly `n` calls of `prepare_dotprod` have been made since the single
`init_dotprod`, with one `protocol.exchange()` in between.  When `input.finalize(o)`
is called, `o` is 0 or 1, `input.exchange()` has been called, `n` values have been
declared with `add_from_all` and fewer than `n` calls `input.finalize(o)` came before;
a run that returns has made `n` calls for each owner.  When `finalize_open` is called,
exactly one share has been staged with `prepare_open` since `init_open`,
`output.exchange` has been called, and it is the only `finalize_open`.  Hence, on the
ideal collaborators with at least two parties, no `ProtocolError` is thrown in `run`
(`run` is `runWith 1000`). -/
theorem call_counts_respected [Inhabited Sh] [Inhabited Clr] (cl : Collab σ Sh Clr)
    (n : Nat) (argv : List String) (prime_length : Int) (s0 : State σ Sh Clr) :
    (∀ l1 l2 k, newLog s0 (runWith cl n argv prime_length s0).2 =
        l1 ++ Ev.callS (ShareCall.finalize_dotprod k) :: l2 →
      k = n ∧ calls Kind.protocol_exchange l1 = 1 ∧
      ∃ l0 m, l1 = l0 ++ Ev.callV VoidCall.init_dotprod :: m ∧
        calls Kind.prepare_dotprod l0 = 0 ∧ calls Kind.init_dotprod l0 = 0 ∧
        calls Kind.prepare_dotprod m = n ∧ calls Kind.init_dotprod m = 0 ∧
        calls Kind.protocol_exchange l0 = 0 ∧ calls Kind.protocol_exchange m = 1) ∧
    (∀ l1 l2 o, newLog s0 (runWith cl n argv prime_length s0).2 =
        l1 ++ Ev.callS (ShareCall.input_finalize o) :: l2 →
      (o = 0 ∨ o = 1) ∧ calls Kind.input_exchange l1 = 1 ∧
      calls Kind.input_add_from_all l1 = n ∧ finalizeCalls o l1 < n) ∧
    ((∃ x, (runWith cl n argv prime_length s0).1 = Except.ok x) →
      finalizeCalls 0 (newLog s0 (runWith cl n argv prime_length s0).2) = n ∧
      finalizeCalls 1 (newLog s0 (runWith cl n argv prime_length s0).2) = n ∧
      calls Kind.input_add_from_all (newLog s0 (runWith cl n argv prime_length s0).2) = n) ∧
    (∀ l1 l2, newLog s0 (runWith cl n argv prime_length s0).2 =
        l1 ++ Ev.callC ClearCall.finalize_open :: l2 →
      calls Kind.init_open l1 = 1 ∧ calls Kind.prepare_open l1 = 1 ∧
      calls Kind.output_exchange l1 = 1 ∧ calls Kind.finalize_open l1 = 0 ∧
      calls Kind.finalize_open l2 = 0 ∧ calls Kind.prepare_open l2 = 0) ∧
    (∀ (s1 : State Ideal Int Int), 2 ≤ atoi (argvAt argv 2) →
      (runWith idealCollab n argv prime_length s1).1 ≠ Except.error Err.ProtocolError) := by
  rcases log_follows cl n argv prime_length s0 with ⟨u, hu, hiff⟩
  refine ⟨fun l1 l2 k hl => at_finalize_dotprod n argv prime_length _ _ u l1 l2 k hu hl,
    fun l1 l2 o hl => at_input_finalize n argv prime_length _ _ u l1 l2 o hu hl,
    fun hx => ?_,
    fun l1 l2 hl => at_finalize_open n argv prime_length _ _ u l1 l2 hu hl,
    fun s1 hnp => ideal_no_protocol_error n argv prime_length s1 hnp⟩
  have hnil := hiff.2 hx
  subst hnil
  rw [List.append_nil] at hu
  rw [hu]
  exact finalizeCalls_script n argv prime_length _

theorem call_counts_respected_witness :
    2 ≤ atoi (argvAt ["paper-example", "0", "2"] 2) ∧
    (runWith idealCollab 3 ["paper-example", "0", "2"] 128 (startState honestEnv)).1
      ≠ Except.error Err.ProtocolError :=
  ⟨by decide,
   (call_counts_respected idealCollab 3 ["paper-example", "0", "2"] 128
      (startState honestEnv)).2.2.2.2 (startState honestEnv) (by decide)⟩

end PaperExample
